import Mathlib

/-!
Verification of the natural-language date/time resolver, argument
normalizer, free-slot finder and conversation memory of the `gather`
scheduling assistant.  Strings are modelled as `List Char`; the Python
string operations used by the source (strip, lower, split, replace,
substring test, the few fixed regular expressions) are embedded as
executable functions below, and each tool's logic is translated from
`src/agent/tools/calendar.py`, `src/integrations/calendar_api.py`,
`src/agent/memory.py` and `src/storage/json_storage.py`.
-/

/-- Strings are modelled as lists of characters. -/
abbrev Str := List Char

/-- Coerce a Lean string literal to the `List Char` model. -/
def L (s : String) : Str := s.data

/-- ASCII decimal digit test (Python `str.isdigit` on ASCII input). -/
def isDig (c : Char) : Bool := decide (48 ≤ c.toNat ∧ c.toNat ≤ 57)

/-- Value of a digit character. -/
def dval (c : Char) : Nat := c.toNat - 48

/-- ASCII lower-casing of one character (Python `str.lower` on ASCII). -/
def asciiLower (c : Char) : Char :=
  if 65 ≤ c.toNat ∧ c.toNat ≤ 90 then Char.ofNat (c.toNat + 32) else c

/-- Python `str.lower()` over the whole string. -/
def toLowerL (s : Str) : Str := s.map asciiLower

/-- The whitespace set stripped by Python's bare `str.strip()`. -/
def pyIsSpace (c : Char) : Bool :=
  decide (c.toNat = 32 ∨ c.toNat = 9 ∨ c.toNat = 10 ∨ c.toNat = 13 ∨ c.toNat = 11 ∨ c.toNat = 12)

/-- Strip characters satisfying `p` from both ends (Python `str.strip(chars)`). -/
def stripBy (p : Char → Bool) (s : Str) : Str :=
  ((s.dropWhile p).reverse.dropWhile p).reverse

/-- Python `str.strip()` (whitespace). -/
def pyStrip (s : Str) : Str := stripBy pyIsSpace s

/-- The single-quote character, `'`. -/
def squote : Char := Char.ofNat 39

/-- `s.strip().strip('"').strip("'")`, the cleanup the tools apply to
comma-separated parts. -/
def stripPart (s : Str) : Str :=
  stripBy (fun c => c = squote) (stripBy (fun c => c = '"') (pyStrip s))

/-- Python substring containment `sub in hay`. -/
def containsSub (hay sub : Str) : Bool :=
  if sub.isPrefixOf hay then true
  else match hay with
    | [] => false
    | _ :: t => containsSub t sub

/-- Python `c in hay` for a single character. -/
def containsChar : Str → Char → Bool
  | [], _ => false
  | c :: t, x => c = x || containsChar t x

/-- Python `str.split(sep)` with a one-character separator (no maxsplit). -/
def pySplit (sep : Char) : Str → List Str
  | [] => [[]]
  | c :: t =>
    if c = sep then [] :: pySplit sep t
    else match pySplit sep t with
      | h :: r => (c :: h) :: r
      | [] => [[c]]

/-- Python `str.split(sep, 1)`: split on the first occurrence only. -/
def pySplitFirst (sep : Char) (s : Str) : List Str :=
  match go [] s with
  | none => [s]
  | some (a, b) => [a, b]
where
  go (acc : Str) : Str → Option (Str × Str)
    | [] => none
    | c :: t => if c = sep then some (acc.reverse, t) else go (c :: acc) t

/-- Fuel-driven worker for `pyReplace`; the fuel is an upper bound on the
number of characters still to be consumed, so recursion is structural. -/
def pyReplaceF (pat rep : Str) : Nat → Str → Str
  | 0, s => s
  | f + 1, s =>
    if pat ≠ [] && pat.isPrefixOf s then rep ++ pyReplaceF pat rep f (s.drop pat.length)
    else match s with
      | [] => []
      | c :: t => c :: pyReplaceF pat rep f t

/-- Python `str.replace(pat, rep)` (all non-overlapping occurrences,
left to right); `pat` is never empty at the call sites modelled here. -/
def pyReplace (s pat rep : Str) : Str := pyReplaceF pat rep s.length s

/-- All characters are digits (with Python's `isdigit`, the empty string
is NOT a digit string; call sites check emptiness separately). -/
def allDigits (s : Str) : Bool := s.all isDig

/-- Accumulate the numeric value of a digit string (`int(...)`). -/
def natOfDigits (s : Str) : Nat := s.foldl (fun a c => a * 10 + dval c) 0

/-- Decimal digit character for `n % 10`. -/
def dChar0 (k : Nat) : Char :=
  match k with
  | 0 => '0' | 1 => '1' | 2 => '2' | 3 => '3' | 4 => '4'
  | 5 => '5' | 6 => '6' | 7 => '7' | 8 => '8' | _ => '9'

/-- Last decimal digit of `n` as a character. -/
def dChar (n : Nat) : Char := dChar0 (n % 10)

/-- Fuel-driven worker for `natRepr` (structural recursion on the fuel). -/
def natReprF : Nat → Nat → Str
  | 0, n => [dChar n]
  | f + 1, n => if n < 10 then [dChar n] else natReprF f (n / 10) ++ [dChar n]

/-- Decimal representation of a natural number (no padding). -/
def natRepr (n : Nat) : Str := natReprF n n

/-- Python `f"{n:02d}"`: decimal representation padded to at least two digits. -/
def pad2 (n : Nat) : Str := if n < 10 then '0' :: [dChar n] else natRepr n

/-- `HH:MM:SS` rendering used by `strftime("%H:%M:%S")`. -/
def timePad (h mi s : Nat) : Str := pad2 h ++ ':' :: (pad2 mi ++ ':' :: pad2 s)

/-!  ## The Time-of-Day Parser: `_parse_time` from `src/agent/tools/calendar.py` -/

/-- Shallow embedding of `_parse_time`.  Follows the source line by line:
noon/midnight literals, then the am/pm branch (digits before the suffix,
12-hour conversion, clamp `>= 24` to 23 in the pm arm only), then the
colon branch, then bare digits, with fallback `"09:00:00"` everywhere. -/
def pyParseTime (s : Str) : Str :=
  let t := toLowerL (pyStrip s)
  if t = [] then L "09:00:00"
  else if containsSub t (L "noon") then L "12:00:00"
  else if containsSub t (L "midnight") then L "00:00:00"
  else if containsSub t (L "pm") || containsSub t (L "am") then
    let clean := pyReplace (pyReplace t (L " ") []) (L ":") []
    if containsSub clean (L "pm") then
      let hs := pyReplace clean (L "pm") []
      if hs = [] || !allDigits hs then L "09:00:00"
      else
        let h := natOfDigits hs
        let h2 := if h ≠ 12 then h + 12 else h
        let h3 := if h2 ≥ 24 then 23 else h2
        pad2 h3 ++ L ":00:00"
    else
      let hs := pyReplace clean (L "am") []
      if hs = [] || !allDigits hs then L "09:00:00"
      else
        let h := natOfDigits hs
        let h2 := if h = 12 then 0 else h
        pad2 h2 ++ L ":00:00"
  else if containsSub t (L ":") then
    let parts := pySplit ':' t
    let p0 := parts.headD []
    if !(p0 ≠ [] && allDigits p0) then L "09:00:00"
    else
      let h := natOfDigits p0
      let p1 := (parts.drop 1).headD []
      let mi := if parts.length > 1 && (p1 ≠ [] && allDigits p1) then natOfDigits p1 else 0
      let h2 := if h ≥ 24 then 23 else h
      let mi2 := if mi ≥ 60 then 59 else mi
      pad2 h2 ++ ':' :: (pad2 mi2 ++ L ":00")
  else
    if !(t ≠ [] && allDigits t) then L "09:00:00"
    else
      let h := natOfDigits t
      let h2 := if h ≥ 24 then 23 else h
      pad2 h2 ++ L ":00:00"

/-! ## Calendar dates: the slice of Python `datetime` used by `parse_date`
(`datetime.weekday`, `+ timedelta(days=k)`, `strftime('%Y-%m-%d')`). -/

/-- A calendar date (year, month, day). -/
structure Date where
  y : Nat
  m : Nat
  d : Nat
deriving DecidableEq, Repr

/-- Gregorian leap-year rule. -/
def isLeap (y : Nat) : Bool := decide ((y % 4 = 0 ∧ ¬ y % 100 = 0) ∨ y % 400 = 0)

/-- Days in a month (months outside 1..12 never occur on valid dates). -/
def daysInMonth (y : Nat) (m : Nat) : Nat :=
  match m with
  | 2 => if isLeap y then 29 else 28
  | 4 => 30
  | 6 => 30
  | 9 => 30
  | 11 => 30
  | _ => 31

/-- Days in the year `y` strictly before month `m`. -/
def daysBeforeMonth (y : Nat) (m : Nat) : Nat :=
  match m with
  | 1 => 0
  | 2 => 31
  | 3 => 59 + (if isLeap y then 1 else 0)
  | 4 => 90 + (if isLeap y then 1 else 0)
  | 5 => 120 + (if isLeap y then 1 else 0)
  | 6 => 151 + (if isLeap y then 1 else 0)
  | 7 => 181 + (if isLeap y then 1 else 0)
  | 8 => 212 + (if isLeap y then 1 else 0)
  | 9 => 243 + (if isLeap y then 1 else 0)
  | 10 => 273 + (if isLeap y then 1 else 0)
  | 11 => 304 + (if isLeap y then 1 else 0)
  | _ => 334 + (if isLeap y then 1 else 0)

/-- Number of leap years `z` with `0 ≤ z < y`. -/
def leapsBefore (y : Nat) : Nat := (y + 3) / 4 - (y + 99) / 100 + (y + 399) / 400

/-- Linear day count of a date (days since 0000-01-01, proleptic Gregorian). -/
def dayNumber (dt : Date) : Nat :=
  365 * dt.y + leapsBefore dt.y + daysBeforeMonth dt.y dt.m + (dt.d - 1)

/-- A well-formed calendar date. -/
def ValidDate (dt : Date) : Prop :=
  1 ≤ dt.m ∧ dt.m ≤ 12 ∧ 1 ≤ dt.d ∧ dt.d ≤ daysInMonth dt.y dt.m

instance (dt : Date) : Decidable (ValidDate dt) := by
  unfold ValidDate; infer_instance

/-- The successor date. -/
def nextDay (dt : Date) : Date :=
  if dt.d < daysInMonth dt.y dt.m then ⟨dt.y, dt.m, dt.d + 1⟩
  else if dt.m < 12 then ⟨dt.y, dt.m + 1, 1⟩
  else ⟨dt.y + 1, 1, 1⟩

/-- `date + timedelta(days=k)`. -/
def addDays (dt : Date) : Nat → Date
  | 0 => dt
  | k + 1 => addDays (nextDay dt) k

/-- `datetime.weekday()`: Monday = 0.  The offset 5 aligns the linear day
count with the real-world weekday (2000-01-01 was a Saturday). -/
def weekday (dt : Date) : Nat := (dayNumber dt + 5) % 7

/-- `strftime('%Y-%m-%d')`. -/
def sDate (dt : Date) : Str := natRepr dt.y ++ '-' :: (pad2 dt.m ++ '-' :: pad2 dt.d)

theorem leapsBefore_succ (y : Nat) :
    leapsBefore (y + 1) = leapsBefore y + (if isLeap y then 1 else 0) := by
  by_cases h : (y % 4 = 0 ∧ ¬ y % 100 = 0) ∨ y % 400 = 0
  · rw [if_pos (show isLeap y = true by simp only [isLeap, decide_eq_true_eq]; exact h)]
    simp only [leapsBefore]
    omega
  · rw [if_neg (show ¬ isLeap y = true by simp only [isLeap, decide_eq_true_eq]; exact h)]
    simp only [leapsBefore]
    omega

theorem daysInMonth_pos (y m : Nat) : 0 < daysInMonth y m := by
  unfold daysInMonth
  split <;> first | omega | (split <;> omega)

theorem daysBeforeMonth_succ (y m : Nat) (h1 : 1 ≤ m) (h2 : m ≤ 11) :
    daysBeforeMonth y (m + 1) = daysBeforeMonth y m + daysInMonth y m := by
  interval_cases m <;>
    simp only [daysBeforeMonth, daysInMonth] <;>
    first | omega | (split <;> omega)

theorem validDate_nextDay {dt : Date} (h : ValidDate dt) : ValidDate (nextDay dt) := by
  obtain ⟨h1, h2, h3, h4⟩ := h
  unfold nextDay
  split
  · exact ⟨h1, h2, by show 1 ≤ dt.d + 1; omega, by show dt.d + 1 ≤ daysInMonth dt.y dt.m; omega⟩
  · split
    · exact ⟨by show 1 ≤ dt.m + 1; omega, by show dt.m + 1 ≤ 12; omega,
        le_refl 1, daysInMonth_pos _ _⟩
    · exact ⟨le_refl 1, by show (1 : Nat) ≤ 12; omega, le_refl 1,
        by show 1 ≤ daysInMonth (dt.y + 1) 1; have : daysInMonth (dt.y + 1) 1 = 31 := rfl; omega⟩

theorem dayNumber_nextDay {dt : Date} (h : ValidDate dt) :
    dayNumber (nextDay dt) = dayNumber dt + 1 := by
  obtain ⟨h1, h2, h3, h4⟩ := h
  unfold nextDay
  split
  · simp only [dayNumber]
    omega
  · split
    · have hm := daysBeforeMonth_succ dt.y dt.m h1 (by omega)
      simp only [dayNumber]
      omega
    · have hm : dt.m = 12 := by omega
      have hdim : daysInMonth dt.y dt.m = 31 := by rw [hm]; rfl
      have hbm : daysBeforeMonth dt.y dt.m = 334 + (if isLeap dt.y then 1 else 0) := by
        rw [hm]; rfl
      have hlb := leapsBefore_succ dt.y
      have hdm1 : daysBeforeMonth (dt.y + 1) 1 = 0 := rfl
      simp only [dayNumber]
      rw [hdm1, hbm, hlb]
      split <;> omega

theorem validDate_addDays {dt : Date} (h : ValidDate dt) (k : Nat) :
    ValidDate (addDays dt k) := by
  induction k generalizing dt with
  | zero => exact h
  | succ k ih => exact ih (validDate_nextDay h)

theorem dayNumber_addDays {dt : Date} (h : ValidDate dt) (k : Nat) :
    dayNumber (addDays dt k) = dayNumber dt + k := by
  induction k generalizing dt with
  | zero => rfl
  | succ k ih =>
    show dayNumber (addDays (nextDay dt) k) = _
    rw [ih (validDate_nextDay h), dayNumber_nextDay h]
    omega

theorem weekday_addDays {dt : Date} (h : ValidDate dt) (k : Nat) :
    weekday (addDays dt k) = (weekday dt + k) % 7 := by
  unfold weekday
  rw [dayNumber_addDays h k]
  omega

/-! ## `datetime.strptime`, restricted to the seven formats `parse_date` tries.
CPython compiles each format to a regular expression (matched from the start,
case-insensitively, with full consumption, `\s+` for format whitespace) and
then validates the day of month and year range when building the datetime. -/

/-- Format tokens: literals, whitespace runs, and the directives used by
`parse_date`'s format list. -/
inductive FTok where
  | lit (c : Char)
  | ws
  | pY | pmn | pdy | pH | pM | pS | pI | pB | pb2 | pAP
deriving DecidableEq, Repr

/-- strptime accumulator with CPython's defaults (1900-01-01 00:00:00). -/
structure PS where
  y : Nat := 1900
  m : Nat := 1
  d : Nat := 1
  hr : Nat := 0
  mi : Nat := 0
  se : Nat := 0
  h12 : Nat := 0
  hasH12 : Bool := false
  pm : Bool := false
deriving Repr

/-- Case-insensitive character comparison (the strptime regex carries
`re.IGNORECASE`). -/
def ciEqChar (a b : Char) : Bool := asciiLower a = asciiLower b

/-- Case-insensitive prefix test. -/
def ciPref : Str → Str → Bool
  | [], _ => true
  | _ :: _, [] => false
  | a :: as, b :: bs => ciEqChar a b && ciPref as bs

/-- One- or two-digit numeric directive: a two-digit read is accepted when its
value lies in `[lo2, hi2]`, otherwise a one-digit read with value in
`[lo1, hi1]` (mirrors the regex alternations CPython emits for
`%d`/`%m`/`%H`/`%M`/`%S`/`%I`). -/
def readNum2 (lo2 hi2 lo1 hi1 : Nat) (s : Str) : Option (Nat × Str) :=
  match s with
  | a :: b :: rest =>
    if isDig a && isDig b && decide (lo2 ≤ 10 * dval a + dval b ∧ 10 * dval a + dval b ≤ hi2) then
      some (10 * dval a + dval b, rest)
    else if isDig a && decide (lo1 ≤ dval a ∧ dval a ≤ hi1) then
      some (dval a, b :: rest)
    else none
  | [a] =>
    if isDig a && decide (lo1 ≤ dval a ∧ dval a ≤ hi1) then some (dval a, []) else none
  | [] => none

/-- `%Y`: exactly four digits (CPython emits `\d\d\d\d` for `%Y`). -/
def readY (s : Str) : Option (Nat × Str) :=
  match s with
  | a :: b :: c :: d :: rest =>
    if isDig a && isDig b && isDig c && isDig d then
      some (natOfDigits [a, b, c, d], rest)
    else none
  | _ => none

/-- Try month names in order (case-insensitive prefix; no month name is a
prefix of another). -/
def readName (names : List (Str × Nat)) (s : Str) : Option (Nat × Str) :=
  match names with
  | [] => none
  | (nm, v) :: rest =>
    if ciPref nm s then some (v, s.drop nm.length) else readName rest s

/-- Full month names for `%B`. -/
def monthsFull : List (Str × Nat) :=
  [(L "january", 1), (L "february", 2), (L "march", 3), (L "april", 4),
   (L "may", 5), (L "june", 6), (L "july", 7), (L "august", 8),
   (L "september", 9), (L "october", 10), (L "november", 11), (L "december", 12)]

/-- Abbreviated month names for `%b`. -/
def monthsAbbr : List (Str × Nat) :=
  [(L "jan", 1), (L "feb", 2), (L "mar", 3), (L "apr", 4), (L "may", 5),
   (L "jun", 6), (L "jul", 7), (L "aug", 8), (L "sep", 9), (L "oct", 10),
   (L "nov", 11), (L "dec", 12)]

/-- `%p`: `AM`/`PM`, case-insensitively; `true` means PM. -/
def readAmPm (s : Str) : Option (Bool × Str) :=
  if ciPref (L "am") s then some (false, s.drop 2)
  else if ciPref (L "pm") s then some (true, s.drop 2)
  else none

/-- Run a token list over the input; the whole input must be consumed. -/
def runFmt : List FTok → PS → Str → Option PS
  | [], ps, s => if s = [] then some ps else none
  | .lit c :: T, ps, s =>
    match s with
    | c2 :: rest => if ciEqChar c c2 then runFmt T ps rest else none
    | [] => none
  | .ws :: T, ps, s =>
    match s with
    | c :: rest => if pyIsSpace c then runFmt T ps (rest.dropWhile pyIsSpace) else none
    | [] => none
  | .pY :: T, ps, s =>
    match readY s with
    | some (v, rest) => runFmt T { ps with y := v } rest
    | none => none
  | .pmn :: T, ps, s =>
    match readNum2 1 12 1 9 s with
    | some (v, rest) => runFmt T { ps with m := v } rest
    | none => none
  | .pdy :: T, ps, s =>
    match readNum2 1 31 1 9 s with
    | some (v, rest) => runFmt T { ps with d := v } rest
    | none => none
  | .pH :: T, ps, s =>
    match readNum2 0 23 0 9 s with
    | some (v, rest) => runFmt T { ps with hr := v } rest
    | none => none
  | .pM :: T, ps, s =>
    match readNum2 0 59 0 9 s with
    | some (v, rest) => runFmt T { ps with mi := v } rest
    | none => none
  | .pS :: T, ps, s =>
    match readNum2 0 59 0 9 s with
    | some (v, rest) => runFmt T { ps with se := v } rest
    | none => none
  | .pI :: T, ps, s =>
    match readNum2 1 12 1 9 s with
    | some (v, rest) => runFmt T { ps with h12 := v, hasH12 := true } rest
    | none => none
  | .pB :: T, ps, s =>
    match readName monthsFull s with
    | some (v, rest) => runFmt T { ps with m := v } rest
    | none => none
  | .pb2 :: T, ps, s =>
    match readName monthsAbbr s with
    | some (v, rest) => runFmt T { ps with m := v } rest
    | none => none
  | .pAP :: T, ps, s =>
    match readAmPm s with
    | some (v, rest) => runFmt T { ps with pm := v } rest
    | none => none

/-- A parsed datetime together with whether the format carried a time
(`parse_date` only overrides the time when `"%I:%M %p"` or `"%H:%M"`
occurs in the format string). -/
structure DT where
  y : Nat
  m : Nat
  d : Nat
  hr : Nat
  mi : Nat
  se : Nat
  hasTime : Bool
deriving DecidableEq, Repr

/-- One entry of `parse_date`'s `date_formats` list. -/
structure Fmt where
  toks : List FTok
  hasTime : Bool

/-- Post-match validation and 12-hour conversion, as in CPython's
`_strptime` plus the `datetime` constructor (which rejects a day that
exceeds the month length and years outside `MINYEAR..`). -/
def finishPS (ps : PS) (hasTime : Bool) : Option DT :=
  if 1 ≤ ps.y ∧ ps.d ≤ daysInMonth ps.y ps.m then
    let hr :=
      if ps.hasH12 then
        if ps.pm then (if ps.h12 = 12 then 12 else ps.h12 + 12)
        else (if ps.h12 = 12 then 0 else ps.h12)
      else ps.hr
    some ⟨ps.y, ps.m, ps.d, hr, ps.mi, ps.se, hasTime⟩
  else none

/-- `datetime.strptime(s, fmt)` as an `Option`. -/
def strptime (f : Fmt) (s : Str) : Option DT :=
  match runFmt f.toks {} s with
  | some ps => finishPS ps f.hasTime
  | none => none

/-- `"%B %d, %Y %I:%M %p"`. -/
def fmtA : Fmt :=
  ⟨[.pB, .ws, .pdy, .lit ',', .ws, .pY, .ws, .pI, .lit ':', .pM, .ws, .pAP], true⟩

/-- `"%B %d, %Y"`. -/
def fmtB : Fmt := ⟨[.pB, .ws, .pdy, .lit ',', .ws, .pY], false⟩

/-- `"%b %d, %Y %I:%M %p"`. -/
def fmtC : Fmt :=
  ⟨[.pb2, .ws, .pdy, .lit ',', .ws, .pY, .ws, .pI, .lit ':', .pM, .ws, .pAP], true⟩

/-- `"%b %d, %Y"`. -/
def fmtD : Fmt := ⟨[.pb2, .ws, .pdy, .lit ',', .ws, .pY], false⟩

/-- `"%Y-%m-%d"`. -/
def fmtE : Fmt := ⟨[.pY, .lit '-', .pmn, .lit '-', .pdy], false⟩

/-- `"%Y-%m-%d %H:%M:%S"`. -/
def fmtF : Fmt :=
  ⟨[.pY, .lit '-', .pmn, .lit '-', .pdy, .ws, .pH, .lit ':', .pM, .lit ':', .pS], true⟩

/-- `"%Y-%m-%dT%H:%M:%S"`. -/
def fmtG : Fmt :=
  ⟨[.pY, .lit '-', .pmn, .lit '-', .pdy, .lit 'T', .pH, .lit ':', .pM, .lit ':', .pS], true⟩

/-- `parse_date`'s ordered `date_formats` list. -/
def dateFormats : List Fmt := [fmtA, fmtB, fmtC, fmtD, fmtE, fmtF, fmtG]

/-- The `for fmt in date_formats` loop: first successful parse wins. -/
def tryFormats (s : Str) : Option DT := dateFormats.findSome? (fun f => strptime f s)

/-! ## `parse_date` from `src/agent/tools/calendar.py` -/

/-- `\w` (ASCII: the inputs have been lower-cased already where this is used). -/
def isWordChar (c : Char) : Bool :=
  isDig c || decide (97 ≤ c.toNat ∧ c.toNat ≤ 122) ||
  decide (65 ≤ c.toNat ∧ c.toNat ≤ 90) || c = '_'

/-- A word boundary holds against this adjacent text (empty = string edge). -/
def bOk : Str → Bool
  | [] => true
  | c :: _ => !isWordChar c

/-- Scanner for `re.split(r'\bat\b', s, maxsplit=1)`: the accumulator holds
the already-scanned prefix reversed, so its head is the character before the
candidate match. -/
def findAtSplitGo (acc : Str) : Str → Option (Str × Str)
  | c1 :: c2 :: r =>
    if c1 = 'a' && c2 = 't' && bOk acc && bOk r then some (acc.reverse, r)
    else findAtSplitGo (c1 :: acc) (c2 :: r)
  | _ => none

/-- First standalone `"at"`: the text before it and after it, if any. -/
def findAtSplit (s : Str) : Option (Str × Str) := findAtSplitGo [] s

/-- The time-override step shared by the tonight/today/tomorrow/day-name
branches: if the text has a standalone `"at"`, re-derive the time from the
text after it (`_parse_time` never raises, so the `except` arm is dead). -/
def atOverride (dl ts : Str) : Str :=
  match findAtSplit dl with
  | some (_, post) => pyParseTime (pyStrip post)
  | none => ts

/-- `re.search(key + '=["\']([^"\']+)["\']', s)` for a literal `key=`:
try to match at this position (`key` here includes the `=`). -/
def tryQuotedAt (key s : Str) : Option Str :=
  if key.isPrefixOf s then
    match s.drop key.length with
    | q :: t =>
      if q = '"' || q = squote then
        let content := t.takeWhile (fun c => !(c = '"' || c = squote))
        if content ≠ [] && t.drop content.length ≠ [] then some content else none
      else none
    | [] => none
  else none

/-- Leftmost match of the quoted-value pattern (the regex scans positions
left to right and a failed position falls through to the next one). -/
def reSearchQuoted (key : Str) : Str → Option Str
  | [] => none
  | c :: t =>
    match tryQuotedAt key (c :: t) with
    | some v => some v
    | none => reSearchQuoted key t

/-- Lines 380-402 of `parse_date`: recover the two logical arguments when
the upstream agent passed them concatenated (`key="value"` style first,
then the comma-with-quotes style). -/
def recoverArgs (dd dt : Str) : Str × Str :=
  let step1 :=
    if containsSub dd (L "date_description=") || containsSub dt (L "default_time=") then
      let dd1 :=
        match reSearchQuoted (L "date_description=") dd with
        | some v => v
        | none => dd
      let dt1 :=
        match reSearchQuoted (L "default_time=") dd1 with
        | some v => v
        | none =>
          match reSearchQuoted (L "default_time=") dt with
          | some v => v
          | none => dt
      (dd1, dt1)
    else (dd, dt)
  let dd1 := step1.1
  let dt1 := step1.2
  if containsChar dd1 ',' && containsChar dd1 '"' && !containsSub dd1 (L "date_description=") then
    let parts := (pySplit ',' dd1).map (fun p => stripBy (fun c => c = '"') (pyStrip p))
    if parts.length ≥ 2 then
      (parts.headD [], if (parts.drop 1).headD [] ≠ [] then (parts.drop 1).headD [] else dt1)
    else (dd1, dt1)
  else (dd1, dt1)

/-- The weekday dictionary, in its Python insertion order. -/
def dayNamesL : List (Str × Nat) :=
  [(L "monday", 0), (L "tuesday", 1), (L "wednesday", 2), (L "thursday", 3),
   (L "friday", 4), (L "saturday", 5), (L "sunday", 6)]

/-- The `for day, day_num in day_names.items()` loop: first name contained
in the lower-cased text wins. -/
def findDayGo (dl : Str) : List (Str × Nat) → Option (Str × Nat)
  | [] => none
  | (nm, i) :: rest => if containsSub dl nm then some (nm, i) else findDayGo dl rest

/-- First weekday name occurring in the text, with its index. -/
def findDay (dl : Str) : Option (Str × Nat) := findDayGo dl dayNamesL

/-- `default_time` after the emptiness fallback (`"09:00:00"`). -/
def defTime (dt : Str) : Str := if pyStrip dt = [] then L "09:00:00" else dt

/-- Append `":00"` when the time has only `HH:MM` (split on `':'` gives
exactly two parts). -/
def padColon (ts : Str) : Str :=
  if (pySplit ':' ts).length = 2 then ts ++ L ":00" else ts

/-- `time_str` right after the normalisation prologue of `parse_date`. -/
def baseTime (dt : Str) : Str := padColon (pyStrip (defTime dt))

/-- `date_lower = date_description.lower().strip()`. -/
def dlow (dd : Str) : Str := pyStrip (toLowerL dd)

/-- `parse_date` after argument recovery, translated branch by branch:
tonight, exact "today", tomorrow, weekend, explicit formats, then weekday
names; unknown text yields the error string. -/
def parseDateCore (today : Date) (dd dt : Str) : Str :=
  let dt1 := defTime dt
  let ts1 := baseTime dt
  let dl := dlow dd
  if containsSub dl (L "tonight") then
    let ts2 := if dt1 = L "09:00:00" then L "18:00:00" else ts1
    sDate today ++ 'T' :: atOverride dl ts2
  else if dl = L "today" then
    sDate today ++ 'T' :: atOverride dl ts1
  else if containsSub dl (L "tomorrow") then
    sDate (addDays today 1) ++ 'T' :: atOverride dl ts1
  else if containsSub dl (L "weekend") then
    let d0 : Int := 5 - (weekday today : Int)
    let d1 : Int :=
      if d0 < 0 then d0 + 7
      else if d0 = 0 ∧ containsSub dl (L "this") = false then 7
      else d0
    sDate (addDays today d1.toNat) ++ 'T' :: ts1
  else
    match tryFormats (pyStrip dd) with
    | some r =>
      sDate ⟨r.y, r.m, r.d⟩ ++ 'T' :: (if r.hasTime then timePad r.hr r.mi r.se else ts1)
    | none =>
      match findDay dl with
      | none =>
        L "Error: Could not parse date '" ++ dd ++
          L "'. Supported formats: day names (e.g., 'Friday', 'Saturday'), dates like 'December 7, 2023', or ISO dates like '2025-12-07'."
      | some (_, idx) =>
        let ts2 := atOverride dl ts1
        let isNext := containsSub dl (L "next")
        let delta : Int := (idx : Int) - (weekday today : Int)
        let k : Int :=
          if delta < 0 then delta + 7
          else if delta = 0 then (if isNext then 7 else 0)
          else (if isNext then delta + 7 else delta)
        sDate (addDays today k.toNat) ++ 'T' :: padColon ts2

/-- The `parse_date` tool: argument recovery, then the branch chain.  The
surrounding `try/except` is unreachable in this model because every helper
is total. -/
def parseDate (today : Date) (dd dt : Str) : Str :=
  let p := recoverArgs dd dt
  parseDateCore today p.1 p.2

/-! ## `check_availability`: argument normalisation (comma style, then
`key="value"` style), the default-user fallback and the `date_iso` check. -/

/-- Outcome of a tool call: an error string returned as the observation, or
the call into the calendar capability. -/
inductive CAResult where
  | err (msg : Str)
  | query (userId dateIso : Str)
deriving DecidableEq, Repr

/-- Lines 24-39 of `check_availability`: the comma branch splits on the
first comma and strips whitespace and quotes; the `key="value"` branch
extracts the quoted values (and blanks `user_id` when its key is absent). -/
def checkAvailNorm (u d : Str) : Str × Str :=
  let p1 :=
    if u ≠ [] ∧ containsChar u ',' = true ∧ d = [] then
      let parts := (pySplitFirst ',' u).map stripPart
      if parts.length ≥ 2 then (parts.headD [], (parts.drop 1).headD [])
      else (u, d)
    else (u, d)
  let u1 := p1.1
  let d1 := p1.2
  if u1 ≠ [] ∧ containsSub u1 (L "date_iso=") = true ∧ d1 = [] then
    let d2 :=
      match reSearchQuoted (L "date_iso=") u1 with
      | some v => v
      | none => d1
    let u2 :=
      match reSearchQuoted (L "user_id=") u1 with
      | some v => v
      | none => []
    (u2, d2)
  else (u1, d1)

/-- The `check_availability` tool up to the calendar call; `du` is
`ctx.calendar_client.user_id`. -/
def checkAvailability (du u d : Str) : CAResult :=
  let p := checkAvailNorm u d
  let u1 := if pyStrip p.1 = [] then du else p.1
  if pyStrip p.2 = [] then
    .err (L "Error: date_iso parameter is required. Provide date in ISO format like '2025-11-15T14:00:00'")
  else .query u1 p.2

/-! ## `find_available_times`: argument normalisation and validation. -/

/-- `re.search(key + '=["\']?([^"\',\s]+)["\']?', s)` at one position: an
optional opening quote, then a non-empty run of characters that are not
quotes, commas or whitespace (the trailing optional quote always matches). -/
def tryOptQuotedAt (key s : Str) : Option Str :=
  if key.isPrefixOf s then
    let bad := fun c => c = '"' || c = squote || c = ',' || pyIsSpace c
    match s.drop key.length with
    | [] => none
    | q :: t =>
      if q = '"' || q = squote then
        let content := t.takeWhile (fun c => !bad c)
        if content ≠ [] then some content else none
      else
        let content := (q :: t).takeWhile (fun c => !bad c)
        if content ≠ [] then some content else none
  else none

/-- Leftmost match of the optional-quote pattern. -/
def reSearchOptQuoted (key : Str) : Str → Option Str
  | [] => none
  | c :: t =>
    match tryOptQuotedAt key (c :: t) with
    | some v => some v
    | none => reSearchOptQuoted key t

/-- `re.search(key + '=(\d+)', s)` at one position. -/
def tryKeyDigitsAt (key s : Str) : Option Str :=
  if key.isPrefixOf s then
    let run := (s.drop key.length).takeWhile isDig
    if run ≠ [] then some run else none
  else none

/-- Leftmost match of `key=(\d+)`. -/
def reSearchKeyDigits (key : Str) : Str → Option Str
  | [] => none
  | c :: t =>
    match tryKeyDigitsAt key (c :: t) with
    | some v => some v
    | none => reSearchKeyDigits key t

/-- `re.search(r'(\d+)', s)`: the first run of digits anywhere. -/
def firstDigitsRun : Str → Option Str
  | [] => none
  | c :: t => if isDig c then some (c :: t.takeWhile isDig) else firstDigitsRun t

/-- Outcome of `find_available_times` up to the calendar call. -/
inductive FATResult where
  | err (msg : Str)
  | query (userId startDate endDate : Str) (durationMinutes : Nat)
deriving DecidableEq, Repr

/-- The `start_date` error string (the tool's f-string verbatim). -/
def fatStartErr (u s e : Str) : Str :=
  L "Error: start_date is REQUIRED but received empty value. Received parameters: user_id='" ++
    u ++ L "', start_date='" ++ s ++ L "', end_date='" ++ e ++
    L "'. Make sure to pass start_date as a separate parameter, not as part of a string."

/-- The `end_date` error string. -/
def fatEndErr (u s e : Str) : Str :=
  L "Error: end_date is REQUIRED but received empty value. Received parameters: user_id='" ++
    u ++ L "', start_date='" ++ s ++ L "', end_date='" ++ e ++
    L "'. Make sure to pass end_date as a separate parameter, not as part of a string."

/-- Lines 128-204 of `find_available_times`: the combined `key="value"`
branch, the comma-separated branch, the duration/start/end cleanups, the
default-user fallback and the final duration strip.  Returns the four
normalised fields as they stand right before the required-field checks. -/
def normFAT (du u s e dm : Str) : Str × Str × Str × Str :=
  let p :=
    if u ≠ [] ∧ containsChar u '=' = true ∧
        (containsSub u (L "start_date=") = true ∨ containsSub u (L "end_date=") = true) then
      let u1 := match reSearchQuoted (L "user_id=") u with | some v => v | none => u
      let s1 := match reSearchQuoted (L "start_date=") u with | some v => v | none => s
      let e1 := match reSearchQuoted (L "end_date=") u with | some v => v | none => e
      let dm1 :=
        match reSearchQuoted (L "duration_minutes=") u with
        | some v => v
        | none =>
          match reSearchKeyDigits (L "duration_minutes=") u with
          | some v => v
          | none => dm
      (u1, s1, e1, dm1)
    else if u ≠ [] ∧ containsChar u ',' = true ∧ s = [] then
      let parts := (pySplit ',' u).map stripPart
      if parts.length ≥ 4 then
        (parts.headD [], (parts.drop 1).headD [], (parts.drop 2).headD [], (parts.drop 3).headD [])
      else if parts.length ≥ 3 then
        (parts.headD [], (parts.drop 1).headD [], (parts.drop 2).headD [], dm)
      else if parts.length ≥ 2 then
        (parts.headD [], (parts.drop 1).headD [], e, dm)
      else (u, s, e, dm)
    else (u, s, e, dm)
  let u1 := p.1
  let s1 := p.2.1
  let e1 := p.2.2.1
  let dm1 := p.2.2.2
  let dm2 :=
    if dm1 ≠ [] ∧ (containsSub dm1 (L "duration_minutes=") = true ∨
        ¬ (pyStrip dm1 ≠ [] ∧ allDigits (pyStrip dm1) = true)) then
      match reSearchOptQuoted (L "duration_minutes=") dm1 with
      | some v => v
      | none =>
        match firstDigitsRun dm1 with
        | some v => v
        | none => dm1
    else dm1
  let s2 :=
    if s1 ≠ [] ∧ containsSub s1 (L "start_date=") = true then
      match reSearchQuoted (L "start_date=") s1 with
      | some v => v
      | none => s1
    else s1
  let e2 :=
    if e1 ≠ [] ∧ containsSub e1 (L "end_date=") = true then
      match reSearchQuoted (L "end_date=") e1 with
      | some v => v
      | none => e1
    else e1
  let u2 := if pyStrip u1 = [] then du else u1
  let dm3 :=
    if dm2 ≠ [] then
      let c := stripPart dm2
      if (L "duration_minutes=").isPrefixOf c then
        stripPart (pyReplace c (L "duration_minutes=") [])
      else c
    else dm2
  (u2, s2, e2, dm3)

/-- `find_available_times` up to the calendar call: normalise, then the
required-field checks (returned, not raised), then the duration fallback. -/
def findAvailableTimes (du u s e dm : Str) : FATResult :=
  let n := normFAT du u s e dm
  let u1 := n.1
  let s1 := n.2.1
  let e1 := n.2.2.1
  let dm1 := n.2.2.2
  if pyStrip s1 = [] then .err (fatStartErr u1 s1 e1)
  else if pyStrip e1 = [] then .err (fatEndErr u1 s1 e1)
  else
    let dmOk := pyStrip dm1 ≠ [] ∧ allDigits (pyStrip dm1) = true
    let dur := if dmOk then natOfDigits (pyStrip dm1) else 60
    .query u1 s1 e1 dur

/-! ## `_find_free_slots_google` from `src/integrations/calendar_api.py`
(the hourly walk; `find_available_times` calls it with no preferred times,
so the `current += timedelta(hours=1)` arm always advances).  Times are
minutes on a linear clock. -/

/-- A candidate slot overlaps no busy interval:
`slot_end <= busy_start or current >= busy_end` for every busy interval. -/
def slotFree (busy : List (Nat × Nat)) (cur slotEnd : Nat) : Bool :=
  busy.all (fun b => decide (slotEnd ≤ b.1) || decide (b.2 ≤ cur))

/-- The `while current < end_dt` loop; the fuel bounds the iteration count
(each step advances by 60 minutes, so `end - start + 1` steps suffice). -/
def freeSlotsGo (busy : List (Nat × Nat)) (endT dur : Nat) : Nat → Nat → List (Nat × Nat)
  | 0, _ => []
  | f + 1, cur =>
    if cur < endT then
      let slotEnd := cur + dur
      let rest := freeSlotsGo busy endT dur f (cur + 60)
      if slotFree busy cur slotEnd && decide (slotEnd ≤ endT) then (cur, slotEnd) :: rest
      else rest
    else []

/-- `_find_free_slots_google`: walk hourly candidates, keep the free ones
that end inside the range, and return at most the first ten. -/
def findFreeSlots (busy : List (Nat × Nat)) (startT endT dur : Nat) : List (Nat × Nat) :=
  (freeSlotsGo busy endT dur (endT + 1 - startT) startT).take 10

/-! ## Memory: `load_json` from `src/storage/json_storage.py` and
`get_memory` / `save_memory` from `src/agent/memory.py`. -/

/-- A JSON value (what `json.load` returns when it succeeds). -/
inductive Json where
  | obj (fs : List (String × Json))
  | arr (xs : List Json)
  | str (s : String)
  | num (n : Int)
  | boolean (b : Bool)
  | null

/-- A persisted file either holds parseable JSON or corrupt bytes
(on which `json.load` raises `JSONDecodeError`). -/
inductive StoreFile where
  | good (j : Json)
  | corrupt

/-- The file system visible to `load_json`, keyed by relative path. -/
def Store := String → Option StoreFile

/-- `load_json`: a missing file returns the default, but the `json.load`
call is NOT guarded, so corrupt content propagates as an exception
(modelled as `Except.error`). -/
def loadJson (store : Store) (path : String) (default : Json) : Except String Json :=
  match store path with
  | none => .ok default
  | some .corrupt => .error "json.JSONDecodeError"
  | some (.good j) => .ok j

/-- Python `dict.get(key, default)`; calling `.get` on a non-dict raises
`AttributeError`. -/
def jsonGet (j : Json) (key : String) (dflt : Json) : Except String Json :=
  match j with
  | .obj fs => .ok ((fs.lookup key).getD dflt)
  | _ => .error "AttributeError"

/-- The per-user conversation path used by the memory layer. -/
def histPath (uid : String) : String := "users/" ++ uid ++ "/conversations.json"

/-- Python `xs[-w:]` (note `xs[-0:]` is the whole list). -/
def pySliceLast {α : Type} (w : Nat) (xs : List α) : List α :=
  if w = 0 then xs else xs.drop (xs.length - w)

/-- The message-loading loop of `get_memory`: keep the last `window`
entries, then turn `user`/`assistant` dicts into chat messages (any
non-dict entry raises `AttributeError`, a non-list `messages` value
raises `TypeError` at the slicing). -/
def extractMsgs (window : Nat) (msgsJ : Json) : Except String (List (String × Json)) :=
  match msgsJ with
  | .arr xs =>
    let recent := if xs.length > window then pySliceLast window xs else xs
    recent.foldl
      (fun acc md =>
        match acc with
        | .error e => .error e
        | .ok l =>
          match md with
          | .obj fs =>
            let role := (fs.lookup "role").getD .null
            let content := (fs.lookup "content").getD (.str "")
            match role with
            | .str r =>
              if r = "user" then .ok (l ++ [("user", content)])
              else if r = "assistant" then .ok (l ++ [("assistant", content)])
              else .ok l
            | _ => .ok l
          | _ => .error "AttributeError")
      (.ok [])
  | _ => .error "TypeError"

/-- `get_memory`: load the store (missing file → empty default) and replay
the recent window into the chat memory. -/
def getMemory (store : Store) (uid : String) (window : Nat) :
    Except String (List (String × Json)) :=
  match loadJson store (histPath uid)
      (Json.obj [("messages", .arr []), ("tool_calls", .arr [])]) with
  | .error e => .error e
  | .ok data =>
    match jsonGet data "messages" (.arr []) with
    | .error e => .error e
    | .ok msgsJ => extractMsgs window msgsJ

/-- The tool-call part of one `save_memory` call: extend the persisted list
when the argument list is non-empty (Python truthiness), then truncate to
the most recent 200. -/
def saveToolCallsStep {α : Type} (state tc : List α) : List α :=
  if tc.isEmpty then state
  else
    let s := state ++ tc
    if s.length > 200 then s.drop (s.length - 200) else s

/-- Persisted tool calls after a sequence of `save_memory` calls, starting
from the empty store `clear_memory` leaves behind. -/
def persistedToolCalls {α : Type} (saves : List (List α)) : List α :=
  saves.foldl saveToolCallsStep []

/-- The most recent 200 entries (all of them when fewer). -/
def takeLast200 {α : Type} (l : List α) : List α :=
  if l.length > 200 then l.drop (l.length - 200) else l

/-! ## Lemmas about the string model -/

theorem dropWhile_eq_self_of {p : Char → Bool} {s : Str}
    (h : ∀ c ∈ s, p c = false) : s.dropWhile p = s := by
  cases s with
  | nil => rfl
  | cons c t => simp [List.dropWhile_cons, h c (List.mem_cons_self c t)]

theorem stripBy_eq_self {p : Char → Bool} {s : Str}
    (h : ∀ c ∈ s, p c = false) : stripBy p s = s := by
  unfold stripBy
  rw [dropWhile_eq_self_of h,
    dropWhile_eq_self_of (fun c hc => h c (List.mem_reverse.mp hc)), List.reverse_reverse]

theorem mem_dropWhile {p : Char → Bool} {s : Str} {c : Char}
    (h : c ∈ s.dropWhile p) : c ∈ s := by
  induction s with
  | nil => simp at h
  | cons a t ih =>
    rw [List.dropWhile_cons] at h
    split at h
    · exact List.mem_cons_of_mem a (ih h)
    · exact h

theorem mem_stripBy {p : Char → Bool} {s : Str} {c : Char}
    (h : c ∈ stripBy p s) : c ∈ s := by
  unfold stripBy at h
  rw [List.mem_reverse] at h
  have h2 := mem_dropWhile h
  rw [List.mem_reverse] at h2
  exact mem_dropWhile h2

theorem toLowerL_eq_self {s : Str} (h : ∀ c ∈ s, asciiLower c = c) : toLowerL s = s := by
  induction s with
  | nil => rfl
  | cons a t ih =>
    show asciiLower a :: toLowerL t = a :: t
    rw [h a (List.mem_cons_self a t), ih (fun c hc => h c (List.mem_cons_of_mem a hc))]

theorem containsSub_of_isPrefixOf {hay sub : Str} (h : sub.isPrefixOf hay = true) :
    containsSub hay sub = true := by
  unfold containsSub
  rw [if_pos h]

theorem isPrefixOf_append_right {sub a b : Str} (h : sub.isPrefixOf a = true) :
    sub.isPrefixOf (a ++ b) = true := by
  rw [List.isPrefixOf_iff_prefix] at *
  exact h.trans (List.prefix_append a b)

theorem containsSub_append_left {a b sub : Str} (h : containsSub b sub = true) :
    containsSub (a ++ b) sub = true := by
  induction a with
  | nil => simpa
  | cons c t ih =>
    show containsSub (c :: (t ++ b)) sub = true
    unfold containsSub
    split
    · rfl
    · exact ih

theorem containsSub_append_right {a b sub : Str} (h : containsSub a sub = true) :
    containsSub (a ++ b) sub = true := by
  induction a with
  | nil =>
    unfold containsSub at h
    split at h
    · rename_i hp
      exact containsSub_of_isPrefixOf (isPrefixOf_append_right hp)
    · exact absurd h (by simp)
  | cons c t ih =>
    unfold containsSub at h
    split at h
    · rename_i hp
      exact containsSub_of_isPrefixOf (isPrefixOf_append_right hp)
    · show containsSub (c :: (t ++ b)) sub = true
      unfold containsSub
      split
      · rfl
      · exact ih h

theorem mem_of_containsSub {hay sub : Str} (h : containsSub hay sub = true) {c : Char}
    (hc : c ∈ sub) : c ∈ hay := by
  induction hay with
  | nil =>
    unfold containsSub at h
    split at h
    · rename_i hp
      rw [List.isPrefixOf_iff_prefix, List.prefix_nil] at hp
      subst hp
      simp at hc
    · exact absurd h (by simp)
  | cons a t ih =>
    unfold containsSub at h
    split at h
    · rename_i hp
      rw [List.isPrefixOf_iff_prefix] at hp
      exact hp.sublist.subset hc
    · exact List.mem_cons_of_mem a (ih h)

theorem containsSub_eq_false {hay sub : Str} {c0 : Char} (hc : c0 ∈ sub)
    (h : ∀ c ∈ hay, c ≠ c0) : containsSub hay sub = false := by
  cases hcs : containsSub hay sub
  · rfl
  · exact absurd rfl (h c0 (mem_of_containsSub hcs hc))

theorem ne_of_missing_char {a b : Str} {c0 : Char} (hc : c0 ∈ b)
    (h : ∀ c ∈ a, c ≠ c0) : a ≠ b := by
  intro he
  subst he
  exact h c0 hc rfl

theorem containsChar_eq_false {l : Str} {c : Char} (h : ∀ x ∈ l, x ≠ c) :
    containsChar l c = false := by
  induction l with
  | nil => rfl
  | cons a t ih =>
    simp only [containsChar, Bool.or_eq_false_iff]
    exact ⟨by simp [h a (List.mem_cons_self a t)],
      ih (fun x hx => h x (List.mem_cons_of_mem a hx))⟩

theorem isDig_toNat {c : Char} (h : isDig c = true) : 48 ≤ c.toNat ∧ c.toNat ≤ 57 :=
  of_decide_eq_true h

theorem asciiLower_of_out {c : Char} (h : c.toNat ≤ 64 ∨ 91 ≤ c.toNat) : asciiLower c = c := by
  unfold asciiLower
  rw [if_neg (by omega)]

theorem asciiLower_isDig {c : Char} (h : isDig c = true) : asciiLower c = c := by
  have := isDig_toNat h
  exact asciiLower_of_out (Or.inl (by omega))

theorem isDig_ne {c c0 : Char} (h : isDig c = true) (h0 : isDig c0 = false) : c ≠ c0 := by
  intro he
  subst he
  simp [h] at h0

theorem pyIsSpace_of_isDig {c : Char} (h : isDig c = true) : pyIsSpace c = false := by
  have := isDig_toNat h
  exact decide_eq_false (by omega)

/-! ## Digit and decimal-representation lemmas -/

theorem dChar0_isDig (k : Nat) : isDig (dChar0 k) = true := by
  unfold dChar0
  split <;> decide

theorem dChar_isDig (n : Nat) : isDig (dChar n) = true := dChar0_isDig (n % 10)

theorem dval_dChar (n : Nat) : dval (dChar n) = n % 10 := by
  have h : n % 10 < 10 := Nat.mod_lt _ (by omega)
  show dval (dChar0 (n % 10)) = n % 10
  generalize n % 10 = k at h ⊢
  interval_cases k <;> decide

theorem natReprF_congr : ∀ (f g n : Nat), n ≤ f → n ≤ g → natReprF f n = natReprF g n := by
  intro f
  induction f with
  | zero =>
    intro g n hf hg
    interval_cases n
    cases g with
    | zero => rfl
    | succ g' => simp [natReprF]
  | succ f' ih =>
    intro g n hf hg
    cases g with
    | zero =>
      interval_cases n
      simp [natReprF]
    | succ g' =>
      by_cases h10 : n < 10
      · simp [natReprF, h10]
      · have hdiv : n / 10 < n := Nat.div_lt_self (by omega) (by omega)
        simp only [natReprF, if_neg h10]
        rw [ih g' (n / 10) (by omega) (by omega)]

theorem natRepr_lt10 {n : Nat} (h : n < 10) : natRepr n = [dChar n] := by
  unfold natRepr
  cases n with
  | zero => rfl
  | succ k => simp [natReprF, h]

theorem natRepr_step {n : Nat} (h : 10 ≤ n) : natRepr n = natRepr (n / 10) ++ [dChar n] := by
  unfold natRepr
  cases n with
  | zero => omega
  | succ k =>
    have hdiv : (k + 1) / 10 < k + 1 := Nat.div_lt_self (by omega) (by omega)
    simp only [natReprF, if_neg (show ¬ k + 1 < 10 by omega)]
    rw [natReprF_congr k ((k + 1) / 10) ((k + 1) / 10) (by omega) (by omega)]

theorem natRepr_four {y : Nat} (h1 : 1000 ≤ y) (h2 : y ≤ 9999) :
    natRepr y = [dChar (y / 1000), dChar (y / 100), dChar (y / 10), dChar y] := by
  have e1 : y / 10 / 10 = y / 100 := by
    rw [Nat.div_div_eq_div_mul]
  have e2 : y / 100 / 10 = y / 1000 := by
    rw [Nat.div_div_eq_div_mul]
  rw [natRepr_step (by omega), natRepr_step (show 10 ≤ y / 10 by omega), e1,
    natRepr_step (show 10 ≤ y / 100 by omega), e2,
    natRepr_lt10 (show y / 1000 < 10 by omega)]
  simp

theorem pad2_eq {n : Nat} (h : n ≤ 99) : pad2 n = [dChar (n / 10), dChar n] := by
  unfold pad2
  split
  · rename_i h10
    have hz : n / 10 = 0 := by omega
    rw [hz]
    rfl
  · rename_i h10
    rw [natRepr_step (by omega), natRepr_lt10 (by omega)]
    rfl

theorem natOfDigits_four {y : Nat} (h : y ≤ 9999) :
    natOfDigits [dChar (y / 1000), dChar (y / 100), dChar (y / 10), dChar y] = y := by
  simp only [natOfDigits, List.foldl_cons, List.foldl_nil, dval_dChar]
  omega

theorem mem_natReprF_isDig : ∀ (f n : Nat) (c : Char), c ∈ natReprF f n → isDig c = true := by
  intro f
  induction f with
  | zero =>
    intro n c hc
    simp only [natReprF, List.mem_singleton] at hc
    subst hc
    exact dChar_isDig n
  | succ f' ih =>
    intro n c hc
    by_cases h10 : n < 10
    · simp only [natReprF, if_pos h10, List.mem_singleton] at hc
      subst hc
      exact dChar_isDig n
    · simp only [natReprF, if_neg h10, List.mem_append, List.mem_singleton] at hc
      rcases hc with hc | hc
      · exact ih _ _ hc
      · subst hc
        exact dChar_isDig n

theorem mem_natRepr_isDig {n : Nat} {c : Char} (h : c ∈ natRepr n) : isDig c = true :=
  mem_natReprF_isDig n n c h

theorem mem_pad2_isDig {n : Nat} {c : Char} (h : c ∈ pad2 n) : isDig c = true := by
  unfold pad2 at h
  split at h
  · simp only [List.mem_cons, List.mem_singleton] at h
    rcases h with h | h | h
    · subst h; decide
    · subst h; exact dChar_isDig n
    · simp at h
  · exact mem_natRepr_isDig h

/-! ## `pyReplace` lemmas used for the am/pm analysis -/

theorem pyReplaceF_nil (pat : Str) (f : Nat) : pyReplaceF pat [] f [] = [] := by
  cases f with
  | zero => rfl
  | succ f' => cases pat <;> simp [pyReplaceF, List.isPrefixOf]

theorem pyReplaceF_single_id {p0 : Char} :
    ∀ (s : Str), (∀ c ∈ s, c ≠ p0) → pyReplaceF [p0] [] s.length s = s := by
  intro s
  induction s with
  | nil => intro _; rfl
  | cons c t ih =>
    intro h
    have hne : (p0 == c) = false :=
      beq_eq_false_iff_ne.mpr (Ne.symm (h c (List.mem_cons_self c t)))
    show pyReplaceF [p0] [] (t.length + 1) (c :: t) = c :: t
    have step : pyReplaceF [p0] [] (t.length + 1) (c :: t) = c :: pyReplaceF [p0] [] t.length t := by
      simp [pyReplaceF, List.isPrefixOf, hne]
    rw [step, ih (fun x hx => h x (List.mem_cons_of_mem c hx))]

theorem pyReplace_single_id {p0 : Char} {s : Str} (h : ∀ c ∈ s, c ≠ p0) :
    pyReplace s [p0] [] = s := pyReplaceF_single_id s h

theorem pyReplaceF_suffix {pat : Str} (hpat : pat ≠ [])
    (hhead : ∀ c, pat.head? = some c → isDig c = false) :
    ∀ (hs : Str), (∀ c ∈ hs, isDig c = true) →
      pyReplaceF pat [] (hs ++ pat).length (hs ++ pat) = hs := by
  intro hs
  induction hs with
  | nil =>
    intro _
    show pyReplaceF pat [] pat.length pat = []
    obtain ⟨f, hf⟩ : ∃ f, pat.length = f + 1 := by
      cases hp : pat with
      | nil => exact absurd hp hpat
      | cons a t => exact ⟨t.length, by simp [hp]⟩
    rw [hf]
    have hpref : pat.isPrefixOf pat = true := by
      rw [List.isPrefixOf_iff_prefix]
    have hcond : (decide ¬pat = [] && pat.isPrefixOf pat) = true := by
      simp [hpat, hpref]
    simp only [pyReplaceF, ne_eq, hcond, if_true, List.nil_append, List.drop_length]
    exact pyReplaceF_nil pat f
  | cons c t ih =>
    intro h
    have hc : isDig c = true := h c (List.mem_cons_self c t)
    have hpref : pat.isPrefixOf (c :: (t ++ pat)) = false := by
      cases hp : pat with
      | nil => exact absurd hp hpat
      | cons p0 ps =>
        have hp0 : isDig p0 = false := hhead p0 (by rw [hp]; rfl)
        have : (p0 == c) = false := beq_eq_false_iff_ne.mpr (Ne.symm (isDig_ne hc hp0))
        simp [List.isPrefixOf, this]
    show pyReplaceF pat [] ((t ++ pat).length + 1) (c :: (t ++ pat)) = c :: t
    have step : pyReplaceF pat [] ((t ++ pat).length + 1) (c :: (t ++ pat))
        = c :: pyReplaceF pat [] (t ++ pat).length (t ++ pat) := by
      simp [pyReplaceF, hpref]
    rw [step, ih (fun x hx => h x (List.mem_cons_of_mem c hx))]

theorem pyReplace_suffix {pat hs : Str} (hpat : pat ≠ [])
    (hhead : ∀ c, pat.head? = some c → isDig c = false)
    (h : ∀ c ∈ hs, isDig c = true) : pyReplace (hs ++ pat) pat [] = hs :=
  pyReplaceF_suffix hpat hhead hs h

/-! ## `pySplit` counting and the `padColon` fixed point -/

theorem pySplit_ne_nil (sep : Char) (s : Str) : pySplit sep s ≠ [] := by
  cases s with
  | nil => simp [pySplit]
  | cons c t =>
    simp only [pySplit]
    split
    · simp
    · split <;> simp

theorem pySplit_length (sep : Char) : ∀ s : Str, (pySplit sep s).length = s.count sep + 1 := by
  intro s
  induction s with
  | nil => simp [pySplit]
  | cons c t ih =>
    by_cases hc : c = sep
    · subst hc
      simp [pySplit, List.count_cons, ih]
    · simp only [pySplit, if_neg hc]
      cases hq : pySplit sep t with
      | nil => exact absurd hq (pySplit_ne_nil sep t)
      | cons h r =>
        rw [hq] at ih
        simp only [List.length_cons] at ih ⊢
        simp [List.count_cons, hc]
        omega

theorem count_eq_zero_of {l : Str} {a : Char} (h : ∀ c ∈ l, c ≠ a) : l.count a = 0 :=
  List.count_eq_zero.mpr (fun hmem => h a hmem rfl)

theorem pad2_count_colon (n : Nat) : (pad2 n).count ':' = 0 :=
  count_eq_zero_of (fun c hc => isDig_ne (mem_pad2_isDig hc) (by decide))

set_option maxHeartbeats 2000000 in
theorem pyParseTime_count_colon (x : Str) : (pyParseTime x).count ':' = 2 := by
  simp only [pyParseTime]
  split_ifs <;>
    first
    | (simp only [List.count_append, List.count_cons, pad2_count_colon]; decide)
    | decide

theorem padColon_pyParseTime (x : Str) : padColon (pyParseTime x) = pyParseTime x := by
  unfold padColon
  rw [if_neg]
  rw [pySplit_length, pyParseTime_count_colon]
  omega

theorem reSearchQuoted_none {key s : Str} (h : containsSub s key = false) :
    reSearchQuoted key s = none := by
  induction s with
  | nil => rfl
  | cons c t ih =>
    cases hpre : key.isPrefixOf (c :: t) with
    | false =>
      unfold containsSub at h
      rw [hpre] at h
      simp only [Bool.false_eq_true, if_false] at h
      simp only [reSearchQuoted, tryQuotedAt, hpre, Bool.false_eq_true, if_false]
      exact ih h
    | true =>
      have := containsSub_of_isPrefixOf hpre
      rw [this] at h
      exact absurd h (by simp)

theorem recoverArgs_id {dd dt : Str}
    (h1 : containsSub dd (L "date_description=") = false)
    (h2 : containsSub dt (L "default_time=") = false)
    (h3 : containsChar dd ',' = false ∨ containsChar dd '"' = false) :
    recoverArgs dd dt = (dd, dt) := by
  simp only [recoverArgs, h1, h2, Bool.or_self, Bool.false_eq_true, if_false]
  rcases h3 with h3 | h3 <;> simp [h3]

/-! ## Symbolic execution of the strptime formats on well-formed ISO input -/

theorem daysInMonth_le_31 (y m : Nat) : daysInMonth y m ≤ 31 := by
  unfold daysInMonth
  split <;> first | omega | (split <;> omega)

theorem ciEqChar_letter_digit {a c : Char}
    (ha : 97 ≤ a.toNat ∧ a.toNat ≤ 122) (hc : isDig c = true) : ciEqChar a c = false := by
  unfold ciEqChar
  rw [asciiLower_of_out (Or.inr (by omega)), asciiLower_isDig hc]
  refine decide_eq_false ?_
  intro he
  have ht : a.toNat = c.toNat := congrArg Char.toNat he
  have := isDig_toNat hc
  omega

theorem readName_digit_none {c : Char} (hc : isDig c = true) (rest : Str)
    (names : List (Str × Nat))
    (hn : ∀ p ∈ names, ∃ a as, p.1 = a :: as ∧ 97 ≤ a.toNat ∧ a.toNat ≤ 122) :
    readName names (c :: rest) = none := by
  induction names with
  | nil => rfl
  | cons p ps ih =>
    obtain ⟨nm, v⟩ := p
    obtain ⟨a, as, h1, h2⟩ := hn (nm, v) (List.mem_cons_self _ ps)
    simp only at h1
    subst h1
    have hfail : ciPref (a :: as) (c :: rest) = false := by
      simp [ciPref, ciEqChar_letter_digit h2 hc]
    simp only [readName, hfail, Bool.false_eq_true, if_false]
    exact ih (fun q hq => hn q (List.mem_cons_of_mem _ hq))

theorem monthsFull_heads :
    ∀ p ∈ monthsFull, ∃ a as, p.1 = a :: as ∧ 97 ≤ a.toNat ∧ a.toNat ≤ 122 := by
  intro p hp
  fin_cases hp <;> exact ⟨_, _, rfl, by decide, by decide⟩

theorem monthsAbbr_heads :
    ∀ p ∈ monthsAbbr, ∃ a as, p.1 = a :: as ∧ 97 ≤ a.toNat ∧ a.toNat ≤ 122 := by
  intro p hp
  fin_cases hp <;> exact ⟨_, _, rfl, by decide, by decide⟩

theorem runFmt_pB_digit {T : List FTok} {ps : PS} {c : Char} {rest : Str}
    (hc : isDig c = true) : runFmt (.pB :: T) ps (c :: rest) = none := by
  unfold runFmt
  rw [readName_digit_none hc rest monthsFull monthsFull_heads]

theorem runFmt_pb2_digit {T : List FTok} {ps : PS} {c : Char} {rest : Str}
    (hc : isDig c = true) : runFmt (.pb2 :: T) ps (c :: rest) = none := by
  unfold runFmt
  rw [readName_digit_none hc rest monthsAbbr monthsAbbr_heads]

theorem ciEqChar_refl (c : Char) : ciEqChar c c = true := by
  simp [ciEqChar]

theorem readNum2_pad2 {lo2 hi2 v : Nat} (lo1 hi1 : Nat) (h99 : v ≤ 99) (hlo : lo2 ≤ v)
    (hhi : v ≤ hi2) (rest : Str) :
    readNum2 lo2 hi2 lo1 hi1 (pad2 v ++ rest) = some (v, rest) := by
  rw [pad2_eq h99]
  show readNum2 lo2 hi2 lo1 hi1 (dChar (v / 10) :: dChar v :: rest) = some (v, rest)
  simp only [readNum2]
  rw [dval_dChar, dval_dChar]
  have e2 : 10 * (v / 10 % 10) + v % 10 = v := by omega
  rw [e2]
  rw [if_pos (by simp [dChar_isDig, hlo, hhi])]

theorem readNum2_pad2_nil {lo2 hi2 v : Nat} (lo1 hi1 : Nat) (h99 : v ≤ 99) (hlo : lo2 ≤ v)
    (hhi : v ≤ hi2) :
    readNum2 lo2 hi2 lo1 hi1 (pad2 v) = some (v, []) := by
  have := readNum2_pad2 lo1 hi1 h99 hlo hhi []
  simpa using this

theorem readY_pad {y : Nat} (h1 : 1000 ≤ y) (h2 : y ≤ 9999) (rest : Str) :
    readY (natRepr y ++ rest) = some (y, rest) := by
  rw [natRepr_four h1 h2]
  show readY (dChar (y / 1000) :: dChar (y / 100) :: dChar (y / 10) :: dChar y :: rest) = _
  simp only [readY]
  rw [if_pos (by simp [dChar_isDig])]
  rw [natOfDigits_four h2]

theorem runFmt_ymd {y m d : Nat} (T : List FTok) (ps : PS) (r : Str)
    (hy1 : 1000 ≤ y) (hy2 : y ≤ 9999) (hm1 : 1 ≤ m) (hm2 : m ≤ 12)
    (hd1 : 1 ≤ d) (hd2 : d ≤ 31) :
    runFmt (.pY :: .lit '-' :: .pmn :: .lit '-' :: .pdy :: T) ps (sDate ⟨y, m, d⟩ ++ r)
      = runFmt T { ps with y := y, m := m, d := d } r := by
  have hsh : sDate ⟨y, m, d⟩ ++ r = natRepr y ++ '-' :: (pad2 m ++ '-' :: (pad2 d ++ r)) := by
    simp [sDate, List.append_assoc]
  rw [hsh]
  simp [runFmt, ciEqChar_refl, readY_pad hy1 hy2,
    readNum2_pad2 1 9 (show m ≤ 99 by omega) hm1 hm2,
    readNum2_pad2 1 9 (show d ≤ 99 by omega) hd1 hd2]

theorem runFmt_hms {h mi s : Nat} (ps : PS) (hh : h ≤ 23) (hmi : mi ≤ 59) (hs : s ≤ 59) :
    runFmt [.pH, .lit ':', .pM, .lit ':', .pS] ps (timePad h mi s)
      = some { ps with hr := h, mi := mi, se := s } := by
  unfold timePad
  simp [runFmt, ciEqChar_refl, readNum2_pad2 0 9 (show h ≤ 99 by omega) (Nat.zero_le h) hh,
    readNum2_pad2 0 9 (show mi ≤ 99 by omega) (Nat.zero_le mi) hmi,
    readNum2_pad2_nil 0 9 (show s ≤ 99 by omega) (Nat.zero_le s) hs]

theorem strptime_fmtA_digit {c : Char} {rest : Str} (hc : isDig c = true) :
    strptime fmtA (c :: rest) = none := by
  simp only [strptime, fmtA]
  rw [runFmt_pB_digit hc]

theorem strptime_fmtB_digit {c : Char} {rest : Str} (hc : isDig c = true) :
    strptime fmtB (c :: rest) = none := by
  simp only [strptime, fmtB]
  rw [runFmt_pB_digit hc]

theorem strptime_fmtC_digit {c : Char} {rest : Str} (hc : isDig c = true) :
    strptime fmtC (c :: rest) = none := by
  simp only [strptime, fmtC]
  rw [runFmt_pb2_digit hc]

theorem strptime_fmtD_digit {c : Char} {rest : Str} (hc : isDig c = true) :
    strptime fmtD (c :: rest) = none := by
  simp only [strptime, fmtD]
  rw [runFmt_pb2_digit hc]

theorem strptime_fmtE_iso {y m d h mi s : Nat} (hy1 : 1000 ≤ y) (hy2 : y ≤ 9999)
    (hm1 : 1 ≤ m) (hm2 : m ≤ 12) (hd1 : 1 ≤ d) (hd2 : d ≤ 31) :
    strptime fmtE (sDate ⟨y, m, d⟩ ++ 'T' :: timePad h mi s) = none := by
  simp only [strptime, fmtE]
  rw [show ([.pY, .lit '-', .pmn, .lit '-', .pdy] : List FTok)
      = .pY :: .lit '-' :: .pmn :: .lit '-' :: .pdy :: ([] : List FTok) from rfl]
  rw [runFmt_ymd _ _ _ hy1 hy2 hm1 hm2 hd1 hd2]
  simp [runFmt]

theorem strptime_fmtF_iso {y m d h mi s : Nat} (hy1 : 1000 ≤ y) (hy2 : y ≤ 9999)
    (hm1 : 1 ≤ m) (hm2 : m ≤ 12) (hd1 : 1 ≤ d) (hd2 : d ≤ 31) :
    strptime fmtF (sDate ⟨y, m, d⟩ ++ 'T' :: timePad h mi s) = none := by
  simp only [strptime, fmtF]
  rw [show ([.pY, .lit '-', .pmn, .lit '-', .pdy, .ws, .pH, .lit ':', .pM, .lit ':', .pS] : List FTok)
      = .pY :: .lit '-' :: .pmn :: .lit '-' :: .pdy :: ([.ws, .pH, .lit ':', .pM, .lit ':', .pS] : List FTok) from rfl]
  rw [runFmt_ymd _ _ _ hy1 hy2 hm1 hm2 hd1 hd2]
  simp [runFmt, show pyIsSpace 'T' = false from by decide]

theorem strptime_fmtG_iso {y m d h mi s : Nat} (hy1 : 1000 ≤ y) (hy2 : y ≤ 9999)
    (hm1 : 1 ≤ m) (hm2 : m ≤ 12) (hd1 : 1 ≤ d) (hd2 : d ≤ daysInMonth y m)
    (hh : h ≤ 23) (hmi : mi ≤ 59) (hs : s ≤ 59) :
    strptime fmtG (sDate ⟨y, m, d⟩ ++ 'T' :: timePad h mi s)
      = some ⟨y, m, d, h, mi, s, true⟩ := by
  have hlit : ∀ (T : List FTok) (ps : PS) (r : Str),
      runFmt (.lit 'T' :: T) ps ('T' :: r) = runFmt T ps r := by
    intro T ps r
    simp [runFmt, ciEqChar_refl]
  simp only [strptime, fmtG]
  rw [show ([.pY, .lit '-', .pmn, .lit '-', .pdy, .lit 'T', .pH, .lit ':', .pM, .lit ':', .pS] : List FTok)
      = .pY :: .lit '-' :: .pmn :: .lit '-' :: .pdy ::
        (.lit 'T' :: ([.pH, .lit ':', .pM, .lit ':', .pS] : List FTok)) from rfl]
  rw [runFmt_ymd _ _ _ hy1 hy2 hm1 hm2 hd1 (hd2.trans (daysInMonth_le_31 y m))]
  rw [hlit, runFmt_hms _ hh hmi hs]
  simp [finishPS, hd2, show 1 ≤ y by omega]

theorem tryFormats_iso {y m d h mi s : Nat} (hy1 : 1000 ≤ y) (hy2 : y ≤ 9999)
    (hm1 : 1 ≤ m) (hm2 : m ≤ 12) (hd1 : 1 ≤ d) (hd2 : d ≤ daysInMonth y m)
    (hh : h ≤ 23) (hmi : mi ≤ 59) (hs : s ≤ 59) :
    tryFormats (sDate ⟨y, m, d⟩ ++ 'T' :: timePad h mi s)
      = some ⟨y, m, d, h, mi, s, true⟩ := by
  have hd31 : d ≤ 31 := hd2.trans (daysInMonth_le_31 y m)
  have he : sDate ⟨y, m, d⟩ ++ 'T' :: timePad h mi s
      = dChar (y / 1000) :: (([dChar (y / 100), dChar (y / 10), dChar y]
          ++ '-' :: (pad2 m ++ '-' :: pad2 d)) ++ 'T' :: timePad h mi s) := by
    show (natRepr y ++ _) ++ _ = _
    rw [natRepr_four hy1 hy2]
    simp
  have hA : strptime fmtA (sDate ⟨y, m, d⟩ ++ 'T' :: timePad h mi s) = none := by
    rw [he]; exact strptime_fmtA_digit (dChar_isDig _)
  have hB : strptime fmtB (sDate ⟨y, m, d⟩ ++ 'T' :: timePad h mi s) = none := by
    rw [he]; exact strptime_fmtB_digit (dChar_isDig _)
  have hC : strptime fmtC (sDate ⟨y, m, d⟩ ++ 'T' :: timePad h mi s) = none := by
    rw [he]; exact strptime_fmtC_digit (dChar_isDig _)
  have hD : strptime fmtD (sDate ⟨y, m, d⟩ ++ 'T' :: timePad h mi s) = none := by
    rw [he]; exact strptime_fmtD_digit (dChar_isDig _)
  have hE := @strptime_fmtE_iso y m d h mi s hy1 hy2 hm1 hm2 hd1 hd31
  have hF := @strptime_fmtF_iso y m d h mi s hy1 hy2 hm1 hm2 hd1 hd31
  have hG := strptime_fmtG_iso hy1 hy2 hm1 hm2 hd1 hd2 hh hmi hs
  simp [tryFormats, dateFormats, List.findSome?_cons, hA, hB, hC, hD, hE, hF, hG]

/-! ## Branch-level description of `parse_date` -/

/-- The weekday-offset rule exactly as spec §4.2 step 5 states it:
`delta = day_index - now.weekday()`; negative `delta` gains 7 regardless of
modifier, `delta = 0` maps to 7 for "next" and 0 otherwise, positive
`delta` gains 7 only for "next". -/
def claimOffset (isNext : Bool) (idx wd : Nat) : Int :=
  let delta : Int := (idx : Int) - (wd : Int)
  if delta < 0 then delta + 7
  else if delta = 0 then (if isNext then 7 else 0)
  else if isNext then delta + 7 else delta

theorem findDayGo_mem :
    ∀ (l : List (Str × Nat)) (dl : Str) (p : Str × Nat), findDayGo dl l = some p → p ∈ l := by
  intro l
  induction l with
  | nil => intro dl p h; exact absurd h (by simp [findDayGo])
  | cons q t ih =>
    intro dl p h
    obtain ⟨nm, i⟩ := q
    simp only [findDayGo] at h
    split at h
    · cases h
      exact List.mem_cons_self _ t
    · exact List.mem_cons_of_mem _ (ih dl p h)

theorem findDay_idx_le {dl : Str} {nm : Str} {idx : Nat}
    (h : findDay dl = some (nm, idx)) : idx ≤ 6 := by
  have hm := findDayGo_mem dayNamesL dl (nm, idx) h
  simp only [dayNamesL, List.mem_cons, List.not_mem_nil, or_false, Prod.mk.injEq] at hm
  rcases hm with ⟨_, h2⟩ | ⟨_, h2⟩ | ⟨_, h2⟩ | ⟨_, h2⟩ | ⟨_, h2⟩ | ⟨_, h2⟩ | ⟨_, h2⟩ <;> omega

theorem weekday_lt_7 (dt : Date) : weekday dt < 7 := Nat.mod_lt _ (by omega)

theorem parseDateCore_tonight_eq {today : Date} {dd dt : Str}
    (h1 : containsSub (dlow dd) (L "tonight") = true) :
    parseDateCore today dd dt = sDate today ++ 'T' ::
      atOverride (dlow dd) (if defTime dt = L "09:00:00" then L "18:00:00" else baseTime dt) := by
  simp only [parseDateCore]
  rw [if_pos (by simp [h1])]

theorem parseDateCore_tomorrow_eq {today : Date} {dd dt : Str}
    (h1 : containsSub (dlow dd) (L "tonight") = false)
    (h2 : dlow dd ≠ L "today")
    (h3 : containsSub (dlow dd) (L "tomorrow") = true) :
    parseDateCore today dd dt = sDate (addDays today 1) ++ 'T' ::
      atOverride (dlow dd) (baseTime dt) := by
  simp only [parseDateCore]
  rw [if_neg (by simp [h1]), if_neg h2, if_pos (by simp [h3])]

theorem parseDateCore_weekend_eq {today : Date} {dd dt : Str}
    (h1 : containsSub (dlow dd) (L "tonight") = false)
    (h2 : dlow dd ≠ L "today")
    (h3 : containsSub (dlow dd) (L "tomorrow") = false)
    (h4 : containsSub (dlow dd) (L "weekend") = true) :
    parseDateCore today dd dt =
      sDate (addDays today
        (if (5 - (weekday today : Int)) < 0 then (5 - (weekday today : Int)) + 7
         else if (5 - (weekday today : Int)) = 0 ∧ containsSub (dlow dd) (L "this") = false then 7
         else (5 - (weekday today : Int))).toNat) ++ 'T' :: baseTime dt := by
  simp only [parseDateCore]
  rw [if_neg (by simp [h1]), if_neg h2, if_neg (by simp [h3]), if_pos (by simp [h4])]

theorem parseDateCore_weekday_eq {today : Date} {dd dt : Str} {nm : Str} {idx : Nat}
    (h1 : containsSub (dlow dd) (L "tonight") = false)
    (h2 : dlow dd ≠ L "today")
    (h3 : containsSub (dlow dd) (L "tomorrow") = false)
    (h4 : containsSub (dlow dd) (L "weekend") = false)
    (h5 : tryFormats (pyStrip dd) = none)
    (h6 : findDay (dlow dd) = some (nm, idx)) :
    parseDateCore today dd dt =
      sDate (addDays today
          (claimOffset (containsSub (dlow dd) (L "next")) idx (weekday today)).toNat)
        ++ 'T' :: padColon (atOverride (dlow dd) (baseTime dt)) := by
  simp only [parseDateCore]
  rw [if_neg (by simp [h1]), if_neg h2, if_neg (by simp [h3]), if_neg (by simp [h4]), h5, h6]
  rfl

theorem atOverride_some {dl ts pre post : Str} (h : findAtSplit dl = some (pre, post)) :
    atOverride dl ts = pyParseTime (pyStrip post) := by
  simp [atOverride, h]

theorem atOverride_none {dl ts : Str} (h : findAtSplit dl = none) : atOverride dl ts = ts := by
  simp [atOverride, h]

/-! ## Tool-call cap lemmas (save_memory) -/

theorem length_takeLast200 {α : Type} (l : List α) : (takeLast200 l).length ≤ 200 := by
  unfold takeLast200
  split
  · rw [List.length_drop]
    omega
  · omega

theorem takeLast200_reverse {α : Type} (l : List α) :
    takeLast200 l = (l.reverse.take 200).reverse := by
  unfold takeLast200
  split
  · rename_i hl
    rw [List.reverse_take, List.reverse_reverse, List.length_reverse]
  · rename_i hl
    rw [List.take_of_length_le (by rw [List.length_reverse]; omega), List.reverse_reverse]

theorem takeLast200_append_takeLast200 {α : Type} (xs tc : List α) :
    takeLast200 (takeLast200 xs ++ tc) = takeLast200 (xs ++ tc) := by
  rw [takeLast200_reverse xs, takeLast200_reverse, takeLast200_reverse,
    List.reverse_append, List.reverse_reverse, List.reverse_append]
  congr 1
  rw [List.take_append_eq_append_take, List.take_append_eq_append_take, List.take_take]
  have hmin : min (200 - tc.reverse.length) 200 = 200 - tc.reverse.length := by omega
  rw [hmin]

theorem saveToolCallsStep_takeLast {α : Type} (xs tc : List α) :
    saveToolCallsStep (takeLast200 xs) tc = takeLast200 (xs ++ tc) := by
  unfold saveToolCallsStep
  split
  · rename_i he
    rw [List.isEmpty_iff] at he
    subst he
    rw [List.append_nil]
  · exact takeLast200_append_takeLast200 xs tc

theorem foldl_saveToolCalls {α : Type} :
    ∀ (saves : List (List α)) (xs : List α),
      List.foldl saveToolCallsStep (takeLast200 xs) saves = takeLast200 (xs ++ saves.join) := by
  intro saves
  induction saves with
  | nil => intro xs; simp
  | cons tc rest ih =>
    intro xs
    simp only [List.foldl_cons, List.join_cons]
    rw [saveToolCallsStep_takeLast, ih (xs ++ tc), List.append_assoc]

/-- Claim C10: after any sequence of `save_memory` calls (starting from the
empty store `clear_memory` leaves), the persisted `tool_calls` list equals
the most recent 200 of all tool calls ever saved, and in particular never
exceeds 200 entries; the cap is 200, independent of the 100-message cap. -/
theorem save_memory_tool_calls_cap {α : Type} (saves : List (List α)) :
    persistedToolCalls saves = takeLast200 saves.join ∧
    (persistedToolCalls saves).length ≤ 200 := by
  have hmain : persistedToolCalls saves = takeLast200 saves.join := by
    show List.foldl saveToolCallsStep [] saves = _
    rw [show ([] : List α) = takeLast200 [] from rfl, foldl_saveToolCalls saves []]
    rfl
  exact ⟨hmain, by rw [hmain]; exact length_takeLast200 _⟩

/-- Claim C9: `check_availability` given the comma-joined positional string
`'me, "2025-12-03T18:00:00"'` and an empty `date_iso` splits on the comma,
strips whitespace and quotes, and assigns positionally, so the tool logic
runs with `user_id = "me"` and `date_iso = "2025-12-03T18:00:00"`. -/
theorem check_availability_normalization :
    checkAvailNorm (L "me, \"2025-12-03T18:00:00\"") (L "") = (L "me", L "2025-12-03T18:00:00") ∧
    checkAvailability (L "me") (L "me, \"2025-12-03T18:00:00\"") (L "") =
      .query (L "me") (L "2025-12-03T18:00:00") :=
  ⟨by decide, by decide⟩

/-! ## Free-slot finder lemmas -/

theorem freeSlotsGo_mem {busy : List (Nat × Nat)} {endT dur : Nat} :
    ∀ (f cur : Nat) (sl : Nat × Nat), sl ∈ freeSlotsGo busy endT dur f cur →
      (∃ k, sl.1 = cur + 60 * k) ∧ sl.2 = sl.1 + dur ∧ sl.2 ≤ endT ∧
      (∀ b ∈ busy, sl.2 ≤ b.1 ∨ b.2 ≤ sl.1) := by
  intro f
  induction f with
  | zero => intro cur sl h; simp [freeSlotsGo] at h
  | succ f' ih =>
    intro cur sl h
    simp only [freeSlotsGo] at h
    split at h
    · split at h
      · rename_i hacc
        rcases List.mem_cons.mp h with rfl | h'
        · rw [Bool.and_eq_true] at hacc
          have h1 := hacc.1
          have h2 := of_decide_eq_true hacc.2
          refine ⟨⟨0, by simp⟩, rfl, h2, ?_⟩
          intro b hb
          unfold slotFree at h1
          rw [List.all_eq_true] at h1
          have h3 := h1 b hb
          rw [Bool.or_eq_true] at h3
          rcases h3 with h4 | h4
          · exact Or.inl (of_decide_eq_true h4)
          · exact Or.inr (of_decide_eq_true h4)
        · obtain ⟨⟨k, hk⟩, h2, h3, h4⟩ := ih (cur + 60) sl h'
          exact ⟨⟨k + 1, by omega⟩, h2, h3, h4⟩
      · obtain ⟨⟨k, hk⟩, h2, h3, h4⟩ := ih (cur + 60) sl h
        exact ⟨⟨k + 1, by omega⟩, h2, h3, h4⟩
    · simp at h

/-- Claim C8: `find_free_slots` (the hourly-walk algorithm of
`_find_free_slots_google`, as `find_available_times` invokes it) returns at
most 10 slots; every returned slot starts a whole number of hours after the
range start, lasts exactly the requested duration, ends no later than the
range end, and overlaps no busy interval; and on the concrete example of a
09:00-10:00 busy interval inside 09:00-12:00 with duration 60 it returns
exactly the 10:00-11:00 and 11:00-12:00 slots (times in minutes). -/
theorem find_free_slots_spec (busy : List (Nat × Nat)) (startT endT dur : Nat) :
    (findFreeSlots busy startT endT dur).length ≤ 10 ∧
    (∀ sl ∈ findFreeSlots busy startT endT dur,
      (∃ k, sl.1 = startT + 60 * k) ∧ sl.2 = sl.1 + dur ∧ sl.2 ≤ endT ∧
      ∀ b ∈ busy, sl.2 ≤ b.1 ∨ b.2 ≤ sl.1) ∧
    findFreeSlots [(540, 600)] 540 720 60 = [(600, 660), (660, 720)] := by
  refine ⟨?_, ?_, by decide⟩
  · unfold findFreeSlots
    exact List.length_take_le 10 _
  · intro sl hsl
    exact freeSlotsGo_mem _ startT sl (List.take_subset 10 _ hsl)

/-- Witness for C8 at the concrete example slot `(600, 660)`. -/
theorem find_free_slots_spec_witness :
    (∃ k, (600, 660).1 = 540 + 60 * k) ∧ (600, 660).2 = (600, 660).1 + 60 ∧
    (600, 660).2 ≤ 720 ∧ ∀ b ∈ [(540, 600)], (600, 660).2 ≤ b.1 ∨ b.2 ≤ (600, 660).1 :=
  (find_free_slots_spec [(540, 600)] 540 720 60).2.1 (600, 660) (by decide)

/-- Claim C7: whenever `find_available_times` is invoked with a `start_date`
that is (or normalises to) the empty string, the tool returns the
descriptive error string naming `start_date` as its ordinary result (the
model is a total function, so no exception can escape). -/
theorem find_available_times_missing_start (du u s e dm : Str)
    (hs : pyStrip (normFAT du u s e dm).2.1 = []) :
    findAvailableTimes du u s e dm =
      .err (fatStartErr (normFAT du u s e dm).1 (normFAT du u s e dm).2.1
        (normFAT du u s e dm).2.2.1) ∧
    containsSub (fatStartErr (normFAT du u s e dm).1 (normFAT du u s e dm).2.1
        (normFAT du u s e dm).2.2.1) (L "start_date") = true := by
  constructor
  · simp only [findAvailableTimes]
    rw [if_pos hs]
  · unfold fatStartErr
    exact containsSub_append_right (containsSub_append_right (containsSub_append_right
      (containsSub_append_right (containsSub_append_right (containsSub_append_right
        (by decide))))))

/-- Witness for C7: the end-to-end scenario `start_date = ""`. -/
theorem find_available_times_missing_start_witness :
    findAvailableTimes (L "me") (L "me") [] (L "2025-11-21T18:00:00") (L "60") =
      .err (fatStartErr (normFAT (L "me") (L "me") [] (L "2025-11-21T18:00:00") (L "60")).1
        (normFAT (L "me") (L "me") [] (L "2025-11-21T18:00:00") (L "60")).2.1
        (normFAT (L "me") (L "me") [] (L "2025-11-21T18:00:00") (L "60")).2.2.1) ∧
    containsSub (fatStartErr (normFAT (L "me") (L "me") [] (L "2025-11-21T18:00:00") (L "60")).1
        (normFAT (L "me") (L "me") [] (L "2025-11-21T18:00:00") (L "60")).2.1
        (normFAT (L "me") (L "me") [] (L "2025-11-21T18:00:00") (L "60")).2.2.1)
      (L "start_date") = true :=
  find_available_times_missing_start (L "me") (L "me") [] (L "2025-11-21T18:00:00") (L "60")
    (by decide)

/-- Counterexample to claim C6: a user whose store holds corrupt
(non-parseable) content makes `get_memory` raise (`load_json` does not
guard the `json.load` call), contradicting "load over a missing or corrupt
store never fails". -/
theorem get_memory_corrupt_counterexample :
    getMemory (fun p => if p = histPath "alice" then some .corrupt else none) "alice" 20
      = .error "json.JSONDecodeError" := rfl

/-- Claim C6, amended: a MISSING store is treated as empty and `get_memory`
returns the empty default, but a CORRUPT store propagates the JSON decode
exception. -/
theorem get_memory_missing_amended (store : Store) (uid : String) (w : Nat) :
    (store (histPath uid) = none → getMemory store uid w = .ok []) ∧
    (store (histPath uid) = some .corrupt →
      getMemory store uid w = .error "json.JSONDecodeError") := by
  constructor
  · intro h
    simp [getMemory, loadJson, h, jsonGet, extractMsgs, pySliceLast]
  · intro h
    simp [getMemory, loadJson, h]

/-- Witness for C6 (amended), on a missing and on a corrupt store. -/
theorem get_memory_missing_amended_witness :
    getMemory (fun _ => none) "bob" 20 = .ok [] ∧
    getMemory (fun _ => some .corrupt) "bob" 20 = .error "json.JSONDecodeError" :=
  ⟨(get_memory_missing_amended (fun _ => none) "bob" 20).1 rfl,
   (get_memory_missing_amended (fun _ => some .corrupt) "bob" 20).2 rfl⟩

/-- Counterexample to claim C3: on input `"25am"` the am arm performs no
clamp and returns hour 25, unlike the pm arm on `"25pm"` which clamps the
converted value to 23 — so the returned hour is not always at most 23 and
am is NOT treated exactly as pm. -/
theorem parse_time_am_clamp_counterexample :
    pyParseTime (L "25am") = L "25:00:00" ∧ pyParseTime (L "25pm") = L "23:00:00" :=
  ⟨by decide, by decide⟩

/-- Claim C3, amended: for a purely-numeric hour before the suffix, the pm
arm converts (`+12` unless the hour is 12) and then clamps values `>= 24`
to 23, while the am arm only maps 12 to 0 and performs NO clamp, returning
the unconverted hour even when it exceeds 23. -/
theorem parse_time_am_pm_amended (hs : Str) (hne : hs ≠ []) (hd : allDigits hs = true) :
    pyParseTime (hs ++ L "pm") =
      pad2 (if (if natOfDigits hs ≠ 12 then natOfDigits hs + 12 else natOfDigits hs) ≥ 24
        then 23 else (if natOfDigits hs ≠ 12 then natOfDigits hs + 12 else natOfDigits hs))
        ++ L ":00:00" ∧
    pyParseTime (hs ++ L "am") =
      pad2 (if natOfDigits hs = 12 then 0 else natOfDigits hs) ++ L ":00:00" := by
  have hdig : ∀ c ∈ hs, isDig c = true := by
    intro c hc
    exact List.all_eq_true.mp hd c hc
  constructor
  · -- the pm case
    have hmem : ∀ c ∈ hs ++ L "pm", isDig c = true ∨ c = 'p' ∨ c = 'm' := by
      intro c hc
      rcases List.mem_append.mp hc with h | h
      · exact Or.inl (hdig c h)
      · rw [show L "pm" = ['p', 'm'] from rfl] at h
        right
        simpa using h
    have h1 : pyStrip (hs ++ L "pm") = hs ++ L "pm" := stripBy_eq_self (by
      intro c hc
      rcases hmem c hc with h | h | h
      · exact pyIsSpace_of_isDig h
      · subst h; decide
      · subst h; decide)
    have h2 : toLowerL (hs ++ L "pm") = hs ++ L "pm" := toLowerL_eq_self (by
      intro c hc
      rcases hmem c hc with h | h | h
      · exact asciiLower_isDig h
      · subst h; decide
      · subst h; decide)
    have hne2 : ∀ (c0 : Char), isDig c0 = false → c0 ≠ 'p' → c0 ≠ 'm' →
        ∀ c ∈ hs ++ L "pm", c ≠ c0 := by
      intro c0 h0 hp hm c hc he
      subst he
      rcases hmem c hc with h | h | h
      · simp [h] at h0
      · exact hp h
      · exact hm h
    have hNoon : containsSub (hs ++ L "pm") (L "noon") = false :=
      containsSub_eq_false (show 'o' ∈ L "noon" by decide)
        (hne2 'o' (by decide) (by decide) (by decide))
    have hMid : containsSub (hs ++ L "pm") (L "midnight") = false :=
      containsSub_eq_false (show 'i' ∈ L "midnight" by decide)
        (hne2 'i' (by decide) (by decide) (by decide))
    have hPm : containsSub (hs ++ L "pm") (L "pm") = true :=
      containsSub_append_left (containsSub_of_isPrefixOf (by
        rw [List.isPrefixOf_iff_prefix]))
    have hSpace : pyReplace (hs ++ L "pm") (L " ") [] = hs ++ L "pm" :=
      pyReplace_single_id (hne2 ' ' (by decide) (by decide) (by decide))
    have hColon : pyReplace (hs ++ L "pm") (L ":") [] = hs ++ L "pm" :=
      pyReplace_single_id (hne2 ':' (by decide) (by decide) (by decide))
    have hStripPm : pyReplace (hs ++ L "pm") (L "pm") [] = hs :=
      pyReplace_suffix (by decide)
        (by intro c hcc
            rw [show (L "pm").head? = some 'p' from rfl] at hcc
            cases hcc
            decide)
        hdig
    simp only [pyParseTime]
    rw [h1, h2]
    rw [if_neg (by simp [hne]), if_neg (by simp [hNoon]), if_neg (by simp [hMid]),
      if_pos (by simp [hPm]), hSpace, hColon, if_pos (by simp [hPm]), hStripPm,
      if_neg (by simp [hne, hd])]
  · -- the am case
    have hmem : ∀ c ∈ hs ++ L "am", isDig c = true ∨ c = 'a' ∨ c = 'm' := by
      intro c hc
      rcases List.mem_append.mp hc with h | h
      · exact Or.inl (hdig c h)
      · rw [show L "am" = ['a', 'm'] from rfl] at h
        right
        simpa using h
    have h1 : pyStrip (hs ++ L "am") = hs ++ L "am" := stripBy_eq_self (by
      intro c hc
      rcases hmem c hc with h | h | h
      · exact pyIsSpace_of_isDig h
      · subst h; decide
      · subst h; decide)
    have h2 : toLowerL (hs ++ L "am") = hs ++ L "am" := toLowerL_eq_self (by
      intro c hc
      rcases hmem c hc with h | h | h
      · exact asciiLower_isDig h
      · subst h; decide
      · subst h; decide)
    have hne2 : ∀ (c0 : Char), isDig c0 = false → c0 ≠ 'a' → c0 ≠ 'm' →
        ∀ c ∈ hs ++ L "am", c ≠ c0 := by
      intro c0 h0 hp hm c hc he
      subst he
      rcases hmem c hc with h | h | h
      · simp [h] at h0
      · exact hp h
      · exact hm h
    have hNoon : containsSub (hs ++ L "am") (L "noon") = false :=
      containsSub_eq_false (show 'o' ∈ L "noon" by decide)
        (hne2 'o' (by decide) (by decide) (by decide))
    have hMid : containsSub (hs ++ L "am") (L "midnight") = false :=
      containsSub_eq_false (show 'i' ∈ L "midnight" by decide)
        (hne2 'i' (by decide) (by decide) (by decide))
    have hPmF : containsSub (hs ++ L "am") (L "pm") = false :=
      containsSub_eq_false (show 'p' ∈ L "pm" by decide)
        (hne2 'p' (by decide) (by decide) (by decide))
    have hAm : containsSub (hs ++ L "am") (L "am") = true :=
      containsSub_append_left (containsSub_of_isPrefixOf (by
        rw [List.isPrefixOf_iff_prefix]))
    have hSpace : pyReplace (hs ++ L "am") (L " ") [] = hs ++ L "am" :=
      pyReplace_single_id (hne2 ' ' (by decide) (by decide) (by decide))
    have hColon : pyReplace (hs ++ L "am") (L ":") [] = hs ++ L "am" :=
      pyReplace_single_id (hne2 ':' (by decide) (by decide) (by decide))
    have hStripAm : pyReplace (hs ++ L "am") (L "am") [] = hs :=
      pyReplace_suffix (by decide)
        (by intro c hcc
            rw [show (L "am").head? = some 'a' from rfl] at hcc
            cases hcc
            decide)
        hdig
    simp only [pyParseTime]
    rw [h1, h2]
    rw [if_neg (by simp [hne]), if_neg (by simp [hNoon]), if_neg (by simp [hMid]),
      if_pos (by simp [hAm]), hSpace, hColon, if_neg (by simp [hPmF]), hStripAm,
      if_neg (by simp [hne, hd])]

/-- Witness for C3 (amended) at hour string `"7"`. -/
theorem parse_time_am_pm_amended_witness :
    pyParseTime (L "7" ++ L "pm") =
      pad2 (if (if natOfDigits (L "7") ≠ 12 then natOfDigits (L "7") + 12 else natOfDigits (L "7")) ≥ 24
        then 23 else (if natOfDigits (L "7") ≠ 12 then natOfDigits (L "7") + 12 else natOfDigits (L "7")))
        ++ L ":00:00" ∧
    pyParseTime (L "7" ++ L "am") =
      pad2 (if natOfDigits (L "7") = 12 then 0 else natOfDigits (L "7")) ++ L ":00:00" :=
  parse_time_am_pm_amended (L "7") (by decide) (by decide)

/-- Counterexample to claim C2: on `"tonight"` with the default time,
`parse_date` returns TODAY's date (2025-11-19, the injected now), not
now + 1 day (which would serialise as 2025-11-20). -/
theorem parse_date_tonight_counterexample :
    parseDate ⟨2025, 11, 19⟩ (L "tonight") (L "09:00:00") = L "2025-11-19T18:00:00" ∧
    sDate ⟨2025, 11, 19⟩ = L "2025-11-19" ∧
    sDate (addDays ⟨2025, 11, 19⟩ 1) = L "2025-11-20" :=
  ⟨by decide, by decide, by decide⟩

/-- Claim C2, amended: for every expression containing `"tonight"` (with no
argument-recovery markers), `parse_date` returns a timestamp dated on
`now`'s date itself (not +1 day); the time is 18:00:00 exactly when the
`default_time` argument (after the emptiness fallback) is the literal
`"09:00:00"` and the text has no standalone `"at"` override. -/
theorem parse_date_tonight_amended (today : Date) (dd dt : Str)
    (hr1 : containsSub dd (L "date_description=") = false)
    (hr2 : containsSub dt (L "default_time=") = false)
    (hr3 : containsChar dd ',' = false ∨ containsChar dd '"' = false)
    (ht : containsSub (dlow dd) (L "tonight") = true) :
    parseDate today dd dt = sDate today ++ 'T' ::
      atOverride (dlow dd) (if defTime dt = L "09:00:00" then L "18:00:00" else baseTime dt) ∧
    (defTime dt = L "09:00:00" → findAtSplit (dlow dd) = none →
      parseDate today dd dt = sDate today ++ 'T' :: L "18:00:00") := by
  have hrec := recoverArgs_id hr1 hr2 hr3
  have hmain : parseDate today dd dt = sDate today ++ 'T' ::
      atOverride (dlow dd) (if defTime dt = L "09:00:00" then L "18:00:00" else baseTime dt) := by
    simp only [parseDate, hrec]
    exact parseDateCore_tonight_eq ht
  refine ⟨hmain, fun hdt hat => ?_⟩
  rw [hmain, atOverride_none hat, if_pos hdt]

/-- Witness for C2 (amended): `"tonight"` with the default time resolves to
today's date at 18:00:00. -/
theorem parse_date_tonight_amended_witness :
    parseDate ⟨2025, 11, 19⟩ (L "tonight") (L "09:00:00") =
      sDate ⟨2025, 11, 19⟩ ++ 'T' :: L "18:00:00" :=
  (parse_date_tonight_amended ⟨2025, 11, 19⟩ (L "tonight") (L "09:00:00")
    (by decide) (by decide) (by decide) (by decide)).2 (by decide) (by decide)

/-- Counterexample to claim C5: `"weekend at 2pm"` is classified
ThisWeekend and contains a standalone `"at"`, yet the result keeps the
default time 09:00:00 instead of re-deriving 14:00:00 from the text after
`"at"` (which `_parse_time` would give, second conjunct). -/
theorem parse_date_at_override_counterexample :
    parseDate ⟨2025, 11, 19⟩ (L "weekend at 2pm") (L "09:00:00") = L "2025-11-22T09:00:00" ∧
    pyParseTime (L "2pm") = L "14:00:00" :=
  ⟨by decide, by decide⟩

/-- Claim C5, amended: when the text contains a standalone `"at"`, the
Tonight, Tomorrow and NamedWeekday branches re-derive the time from the
text after the first standalone `"at"`; the ThisWeekend branch ignores the
override and keeps the default-derived time; and the Today branch only
matches the exact text `"today"`, which contains no standalone `"at"`,
so the condition is vacuous there. -/
theorem parse_date_at_override_amended (today : Date) (dd dt : Str) (pre post : Str)
    (hr1 : containsSub dd (L "date_description=") = false)
    (hr2 : containsSub dt (L "default_time=") = false)
    (hr3 : containsChar dd ',' = false ∨ containsChar dd '"' = false)
    (hat : findAtSplit (dlow dd) = some (pre, post)) :
    (containsSub (dlow dd) (L "tonight") = true →
      ∃ ts, parseDate today dd dt = sDate today ++ 'T' :: pyParseTime (pyStrip post) ∧
        ts = pyParseTime (pyStrip post)) ∧
    (containsSub (dlow dd) (L "tonight") = false →
     containsSub (dlow dd) (L "tomorrow") = true →
      parseDate today dd dt = sDate (addDays today 1) ++ 'T' :: pyParseTime (pyStrip post)) ∧
    (∀ nm idx,
      containsSub (dlow dd) (L "tonight") = false →
      containsSub (dlow dd) (L "tomorrow") = false →
      containsSub (dlow dd) (L "weekend") = false →
      tryFormats (pyStrip dd) = none →
      findDay (dlow dd) = some (nm, idx) →
      parseDate today dd dt =
        sDate (addDays today (claimOffset (containsSub (dlow dd) (L "next")) idx
          (weekday today)).toNat) ++ 'T' :: pyParseTime (pyStrip post)) ∧
    (containsSub (dlow dd) (L "tonight") = false →
     containsSub (dlow dd) (L "tomorrow") = false →
     containsSub (dlow dd) (L "weekend") = true →
      ∃ k : Nat, parseDate today dd dt = sDate (addDays today k) ++ 'T' :: baseTime dt) := by
  have hrec := recoverArgs_id hr1 hr2 hr3
  have hNeToday : dlow dd ≠ L "today" := by
    intro he
    rw [he] at hat
    rw [show findAtSplit (L "today") = none from by decide] at hat
    exact Option.noConfusion hat
  refine ⟨?_, ?_, ?_, ?_⟩
  · intro h1
    refine ⟨pyParseTime (pyStrip post), ?_, rfl⟩
    simp only [parseDate, hrec]
    rw [parseDateCore_tonight_eq h1, atOverride_some hat]
  · intro h1 h3
    simp only [parseDate, hrec]
    rw [parseDateCore_tomorrow_eq h1 hNeToday h3, atOverride_some hat]
  · intro nm idx h1 h3 h4 h5 h6
    simp only [parseDate, hrec]
    rw [parseDateCore_weekday_eq h1 hNeToday h3 h4 h5 h6, atOverride_some hat,
      padColon_pyParseTime]
  · intro h1 h3 h4
    refine ⟨(if (5 - (weekday today : Int)) < 0 then (5 - (weekday today : Int)) + 7
      else if (5 - (weekday today : Int)) = 0 ∧ containsSub (dlow dd) (L "this") = false then 7
      else (5 - (weekday today : Int))).toNat, ?_⟩
    simp only [parseDate, hrec]
    exact parseDateCore_weekend_eq h1 hNeToday h3 h4

/-- Witness for C5 (amended): `"tomorrow at 2pm"` picks up 14:00:00 from
the text after the standalone `"at"`. -/
theorem parse_date_at_override_amended_witness :
    parseDate ⟨2025, 11, 19⟩ (L "tomorrow at 2pm") (L "09:00:00")
      = sDate (addDays ⟨2025, 11, 19⟩ 1) ++ 'T' :: pyParseTime (pyStrip (L " 2pm")) :=
  (parse_date_at_override_amended ⟨2025, 11, 19⟩ (L "tomorrow at 2pm") (L "09:00:00")
    (L "tomorrow ") (L " 2pm") (by decide) (by decide) (by decide) (by decide)).2.1
    (by decide) (by decide)

/-- Claim C1: for every expression classified NamedWeekday (it contains a
weekday name and matches no earlier rule), `parse_date` lands on a date
whose offset from `now` follows the spec rule `claimOffset`
(`delta < 0` gains 7 regardless of modifier; `delta = 0` maps to 7 for
"next" and 0 otherwise — so "this Friday" on a Friday is today; `delta > 0`
gains 7 only for "next"), and the resulting date falls on weekday `idx`. -/
theorem parse_date_named_weekday (today : Date) (dd dt nm : Str) (idx : Nat)
    (hvalid : ValidDate today)
    (hr1 : containsSub dd (L "date_description=") = false)
    (hr2 : containsSub dt (L "default_time=") = false)
    (hr3 : containsChar dd ',' = false ∨ containsChar dd '"' = false)
    (h1 : containsSub (dlow dd) (L "tonight") = false)
    (h2 : dlow dd ≠ L "today")
    (h3 : containsSub (dlow dd) (L "tomorrow") = false)
    (h4 : containsSub (dlow dd) (L "weekend") = false)
    (h5 : tryFormats (pyStrip dd) = none)
    (h6 : findDay (dlow dd) = some (nm, idx)) :
    parseDate today dd dt =
      sDate (addDays today (claimOffset (containsSub (dlow dd) (L "next")) idx
        (weekday today)).toNat) ++ 'T' :: padColon (atOverride (dlow dd) (baseTime dt)) ∧
    weekday (addDays today (claimOffset (containsSub (dlow dd) (L "next")) idx
        (weekday today)).toNat) = idx := by
  have hrec := recoverArgs_id hr1 hr2 hr3
  constructor
  · simp only [parseDate, hrec]
    exact parseDateCore_weekday_eq h1 h2 h3 h4 h5 h6
  · have hidx := findDay_idx_le h6
    have hwd := weekday_lt_7 today
    rw [weekday_addDays hvalid]
    simp only [claimOffset]
    split_ifs <;> omega

set_option maxRecDepth 100000 in
/-- Witness for C1: `parse_date("Friday", "18:00:00")` on Wednesday
2025-11-19 lands two days ahead, on weekday 4 (the spec §8 scenario). -/
theorem parse_date_named_weekday_witness :
    parseDate ⟨2025, 11, 19⟩ (L "Friday") (L "18:00:00") =
      sDate (addDays ⟨2025, 11, 19⟩ (claimOffset (containsSub (dlow (L "Friday")) (L "next")) 4
        (weekday ⟨2025, 11, 19⟩)).toNat) ++ 'T' ::
        padColon (atOverride (dlow (L "Friday")) (baseTime (L "18:00:00"))) ∧
    weekday (addDays ⟨2025, 11, 19⟩ (claimOffset (containsSub (dlow (L "Friday")) (L "next")) 4
        (weekday ⟨2025, 11, 19⟩)).toNat) = 4 :=
  parse_date_named_weekday ⟨2025, 11, 19⟩ (L "Friday") (L "18:00:00") (L "friday") 4
    (by decide) (by decide) (by decide) (by decide) (by decide) (by decide)
    (by decide) (by decide) (by decide) (by decide)

set_option maxRecDepth 100000 in
/-- Counterexample to claim C4: a full explicit ISO timestamp round-trips
unchanged, but the same input with the seconds component absent is NOT
completed with ":00" — it matches no format and yields the error string. -/
theorem parse_date_iso_roundtrip_counterexample :
    parseDate ⟨2025, 11, 19⟩ (L "2025-12-07T11:00:00") (L "09:00:00") = L "2025-12-07T11:00:00" ∧
    parseDate ⟨2025, 11, 19⟩ (L "2025-12-07T11:00") (L "09:00:00")
      = L "Error: Could not parse date '2025-12-07T11:00'. Supported formats: day names (e.g., 'Friday', 'Saturday'), dates like 'December 7, 2023', or ISO dates like '2025-12-07'." :=
  ⟨by decide, by decide⟩

/-- Claim C4, amended: every well-formed full `YYYY-MM-DDTHH:MM:SS` input
(4-digit year, valid calendar date, in-range time) is returned unchanged by
`parse_date`; inputs that omit the seconds match no format (CPython's
`%S` is mandatory in `"%Y-%m-%dT%H:%M:%S"`) and produce the error string
instead of being completed with ":00". -/
theorem parse_date_iso_roundtrip_amended (today : Date) (dt : Str) (y m d h mi s : Nat)
    (hy1 : 1000 ≤ y) (hy2 : y ≤ 9999) (hm1 : 1 ≤ m) (hm2 : m ≤ 12)
    (hd1 : 1 ≤ d) (hd2 : d ≤ daysInMonth y m) (hh : h ≤ 23) (hmi : mi ≤ 59) (hs : s ≤ 59) :
    parseDate today (sDate ⟨y, m, d⟩ ++ 'T' :: timePad h mi s) dt
      = sDate ⟨y, m, d⟩ ++ 'T' :: timePad h mi s := by
  have hmem : ∀ c ∈ sDate ⟨y, m, d⟩ ++ 'T' :: timePad h mi s,
      isDig c = true ∨ c = '-' ∨ c = 'T' ∨ c = ':' := by
    intro c hc
    rcases List.mem_append.mp hc with hc | hc
    · unfold sDate at hc
      rcases List.mem_append.mp hc with hc | hc
      · exact Or.inl (mem_natRepr_isDig hc)
      · rcases List.mem_cons.mp hc with rfl | hc
        · exact Or.inr (Or.inl rfl)
        · rcases List.mem_append.mp hc with hc | hc
          · exact Or.inl (mem_pad2_isDig hc)
          · rcases List.mem_cons.mp hc with rfl | hc
            · exact Or.inr (Or.inl rfl)
            · exact Or.inl (mem_pad2_isDig hc)
    · rcases List.mem_cons.mp hc with rfl | hc
      · exact Or.inr (Or.inr (Or.inl rfl))
      · unfold timePad at hc
        rcases List.mem_append.mp hc with hc | hc
        · exact Or.inl (mem_pad2_isDig hc)
        · rcases List.mem_cons.mp hc with rfl | hc
          · exact Or.inr (Or.inr (Or.inr rfl))
          · rcases List.mem_append.mp hc with hc | hc
            · exact Or.inl (mem_pad2_isDig hc)
            · rcases List.mem_cons.mp hc with rfl | hc
              · exact Or.inr (Or.inr (Or.inr rfl))
              · exact Or.inl (mem_pad2_isDig hc)
  have hne : ∀ (c0 : Char), isDig c0 = false → c0 ≠ '-' → c0 ≠ 'T' → c0 ≠ ':' →
      ∀ c ∈ sDate ⟨y, m, d⟩ ++ 'T' :: timePad h mi s, c ≠ c0 := by
    intro c0 h0 hA hB hC c hc he
    subst he
    rcases hmem c hc with hx | hx | hx | hx
    · simp [hx] at h0
    · exact hA hx
    · exact hB hx
    · exact hC hx
  have hstrip : pyStrip (sDate ⟨y, m, d⟩ ++ 'T' :: timePad h mi s)
      = sDate ⟨y, m, d⟩ ++ 'T' :: timePad h mi s := stripBy_eq_self (by
    intro c hc
    rcases hmem c hc with hx | hx | hx | hx
    · exact pyIsSpace_of_isDig hx
    · subst hx; decide
    · subst hx; decide
    · subst hx; decide)
  have hdl : ∀ (c0 : Char), isDig c0 = false → c0 ≠ '-' → c0 ≠ 't' → c0 ≠ ':' →
      ∀ c ∈ dlow (sDate ⟨y, m, d⟩ ++ 'T' :: timePad h mi s), c ≠ c0 := by
    intro c0 h0 hA hB hC c hc he
    subst he
    obtain ⟨c1, hc1, hce⟩ := List.mem_map.mp (mem_stripBy hc)
    rcases hmem c1 hc1 with hx | hx | hx | hx
    · rw [← hce, asciiLower_isDig hx] at h0
      simp [hx] at h0
    · subst hx
      exact hA (by rw [← hce]; decide)
    · subst hx
      exact hB (by rw [← hce]; decide)
    · subst hx
      exact hC (by rw [← hce]; decide)
  have hEq : containsSub (sDate ⟨y, m, d⟩ ++ 'T' :: timePad h mi s)
      (L "date_description=") = false :=
    containsSub_eq_false (show '=' ∈ L "date_description=" by decide)
      (hne '=' (by decide) (by decide) (by decide) (by decide))
  have hEq2 : containsSub (sDate ⟨y, m, d⟩ ++ 'T' :: timePad h mi s)
      (L "default_time=") = false :=
    containsSub_eq_false (show '=' ∈ L "default_time=" by decide)
      (hne '=' (by decide) (by decide) (by decide) (by decide))
  have hComma : containsChar (sDate ⟨y, m, d⟩ ++ 'T' :: timePad h mi s) ',' = false :=
    containsChar_eq_false (hne ',' (by decide) (by decide) (by decide) (by decide))
  have hno : reSearchQuoted (L "date_description=")
      (sDate ⟨y, m, d⟩ ++ 'T' :: timePad h mi s) = none := reSearchQuoted_none hEq
  have hno2 : reSearchQuoted (L "default_time=")
      (sDate ⟨y, m, d⟩ ++ 'T' :: timePad h mi s) = none := reSearchQuoted_none hEq2
  have hcore : ∀ dt' : Str,
      parseDateCore today (sDate ⟨y, m, d⟩ ++ 'T' :: timePad h mi s) dt'
        = sDate ⟨y, m, d⟩ ++ 'T' :: timePad h mi s := by
    intro dt'
    have hTonightF : containsSub (dlow (sDate ⟨y, m, d⟩ ++ 'T' :: timePad h mi s))
        (L "tonight") = false :=
      containsSub_eq_false (show 'g' ∈ L "tonight" by decide)
        (hdl 'g' (by decide) (by decide) (by decide) (by decide))
    have hTodayF : dlow (sDate ⟨y, m, d⟩ ++ 'T' :: timePad h mi s) ≠ L "today" :=
      ne_of_missing_char (show 'y' ∈ L "today" by decide)
        (hdl 'y' (by decide) (by decide) (by decide) (by decide))
    have hTomF : containsSub (dlow (sDate ⟨y, m, d⟩ ++ 'T' :: timePad h mi s))
        (L "tomorrow") = false :=
      containsSub_eq_false (show 'w' ∈ L "tomorrow" by decide)
        (hdl 'w' (by decide) (by decide) (by decide) (by decide))
    have hWkF : containsSub (dlow (sDate ⟨y, m, d⟩ ++ 'T' :: timePad h mi s))
        (L "weekend") = false :=
      containsSub_eq_false (show 'w' ∈ L "weekend" by decide)
        (hdl 'w' (by decide) (by decide) (by decide) (by decide))
    simp only [parseDateCore]
    rw [if_neg (by simp [hTonightF]), if_neg hTodayF, if_neg (by simp [hTomF]),
      if_neg (by simp [hWkF]), hstrip, tryFormats_iso hy1 hy2 hm1 hm2 hd1 hd2 hh hmi hs]
    rfl
  cases hdt : containsSub dt (L "default_time=") with
  | false =>
    have hrec := recoverArgs_id hEq hdt (Or.inl hComma)
    simp only [parseDate, hrec]
    exact hcore dt
  | true =>
    have hrec : recoverArgs (sDate ⟨y, m, d⟩ ++ 'T' :: timePad h mi s) dt
        = (sDate ⟨y, m, d⟩ ++ 'T' :: timePad h mi s,
           match reSearchQuoted (L "default_time=") dt with | some v => v | none => dt) := by
      simp [recoverArgs, hEq, hdt, hno, hno2, hComma]
    simp only [parseDate, hrec]
    exact hcore _

/-- Witness for C4 (amended) at `2025-12-07T11:00:00`. -/
theorem parse_date_iso_roundtrip_amended_witness :
    parseDate ⟨2025, 11, 19⟩ (sDate ⟨2025, 12, 7⟩ ++ 'T' :: timePad 11 0 0) (L "09:00:00")
      = sDate ⟨2025, 12, 7⟩ ++ 'T' :: timePad 11 0 0 :=
  parse_date_iso_roundtrip_amended ⟨2025, 11, 19⟩ (L "09:00:00") 2025 12 7 11 0 0
    (by decide) (by decide) (by decide) (by decide) (by decide) (by decide)
    (by decide) (by decide) (by decide)
